import Mathlib

/-!
Shallow embedding of the y86-simulator sources
(`src/memory/memory_unit.py`, `src/execution/execution_unit.py`,
`src/control/control_unit.py`, `src/interfaces/types.py`) in Lean 4,
together with theorems settling the specification claims.

Conventions used throughout:
* Python `int` is modelled by `Int` (arbitrary precision, as in Python);
  byte values and addresses that are known non-negative are modelled by `Nat`.
* A Python `dict` used as the sparse memory map is modelled by an association
  list `List (Nat × Nat)`; `dict.get(k, 0)` is `memGet`, `dict[k] = v` is
  `memSet` (extensionally equal to Python's in-place update: the same keys map
  to the same values; only the internal insertion order differs, which is
  never observable because every consumer of the map either looks keys up or
  sorts the items).
* Methods that mutate `self` become functions returning the updated record
  next to the original return value.
* The two-character hexadecimal opcode strings (`f"{byte:02X}"`) are modelled
  by the opcode byte itself: the string's first character being `'2'`
  (resp. `'7'`) corresponds to `byte / 16 = 2` (resp. `7`), and the second
  character, the low hex digit, to `byte % 16`.
-/

namespace Y86

/-- Structurally recursive base-2 logarithm (`log2Fuel fuel n` equals
`Nat.log2 n` whenever `n ≤ fuel`); kernel-reducible on literals. -/
def log2Fuel : Nat → Nat → Nat
  | 0, _ => 0
  | fuel + 1, n => if 2 ≤ n then log2Fuel fuel (n / 2) + 1 else 0

/-- Python's `int.bit_length()` for a non-negative integer. -/
def bitLength (n : Nat) : Nat := if n = 0 then 0 else log2Fuel n n + 1

/-- `Cache.__init__` default `cache_size` (`MemoryUnit` always constructs the
cache with `cache_size = 1024`, its own default, as used by `main.py`). -/
def cacheSize : Nat := 1024

/-- `Cache.__init__` `line_size` (`MemoryUnit` always passes `line_size=8`). -/
def lineSize : Nat := 8

/-- `self.num_lines = cache_size // line_size` -/
def numLines : Nat := cacheSize / lineSize

/-- `self.offset_bits = line_size.bit_length() - 1` -/
def offsetBits : Nat := bitLength lineSize - 1

/-- `self.index_bits = self.num_lines.bit_length() - 1` -/
def indexBits : Nat := bitLength numLines - 1

/-- `self.offset_mask = (1 << self.offset_bits) - 1` -/
def offsetMask : Nat := (1 <<< offsetBits) - 1

/-- `self.index_mask = (1 << self.index_bits) - 1` -/
def indexMask : Nat := (1 <<< indexBits) - 1

/-- `Cache.get_index_and_tag` -/
def getIndexAndTag (address : Nat) : Nat × Nat :=
  ((address >>> offsetBits) &&& indexMask, address >>> (offsetBits + indexBits))

/-- The sparse memory map `self.memory : Dict[int, int]` of `MemoryUnit`. -/
abbrev Mem := List (Nat × Nat)

/-- `memory.get(addr, 0)` -/
def memGet (m : Mem) (a : Nat) : Nat := (m.lookup a).getD 0

/-- `memory[addr] = value` (extensionally the Python dict update). -/
def memSet (m : Mem) (a v : Nat) : Mem := (a, v) :: m.filter (fun p => p.1 != a)

/-- `CacheLine.__init__`: the `data` list of length `line_size` is modelled as a
function from offsets; only offsets `< lineSize` are ever read or written. -/
structure CacheLine where
  valid : Bool
  tag : Nat
  data : Nat → Nat
  address : Nat

/-- A fresh cache line: `valid=False, tag=0, data=[0]*line_size, address=0`. -/
def CacheLine.init : CacheLine := { valid := false, tag := 0, data := fun _ => 0, address := 0 }

/-- `Cache`: the list `self.lines` of `num_lines` lines is modelled as a
function from line indices; only indices `< numLines` are ever used, because
indices are produced by masking with `index_mask`. -/
structure Cache where
  lines : Nat → CacheLine
  hits : Nat
  misses : Nat
  accesses : Nat

/-- `Cache.__init__`: all lines fresh, counters zero. -/
def Cache.init : Cache := { lines := fun _ => CacheLine.init, hits := 0, misses := 0, accesses := 0 }

/-- `self.lines[index] = line` (pointwise list update). -/
def updLines (ls : Nat → CacheLine) (i : Nat) (l : CacheLine) : Nat → CacheLine :=
  fun j => if j = i then l else ls j

/-- `line.data[offset] = value` (pointwise list update). -/
def updData (d : Nat → Nat) (i v : Nat) : Nat → Nat :=
  fun j => if j = i then v else d j

/-- `Cache._load_line`: fill the whole line from memory (absent bytes default
to 0), mark it valid, and return the requested byte. -/
def Cache.loadLine (c : Cache) (address : Nat) (memory : Mem) : Nat × Cache :=
  let baseAddr := address - (address &&& offsetMask)
  let it := getIndexAndTag address
  let oldLine := c.lines it.1
  let line : CacheLine :=
    { valid := true, tag := it.2,
      data := fun i => if i < lineSize then memGet memory (baseAddr + i) else oldLine.data i,
      address := baseAddr }
  let c := { c with lines := updLines c.lines it.1 line }
  let offset := address &&& offsetMask
  (line.data offset, c)

/-- `Cache.read_byte`: hit returns the cached byte, miss loads the line. -/
def Cache.readByte (c : Cache) (address : Nat) (memory : Mem) : Nat × Cache :=
  let c := { c with accesses := c.accesses + 1 }
  let it := getIndexAndTag address
  let line := c.lines it.1
  if line.valid ∧ line.tag = it.2 then
    (line.data (address &&& offsetMask), { c with hits := c.hits + 1 })
  else
    let c := { c with misses := c.misses + 1 }
    c.loadLine address memory

/-- `Cache.write_byte`: write through to memory unconditionally; update the
cached copy only when the line is resident (no-write-allocate). Always
returns `True`. -/
def Cache.writeByte (c : Cache) (address value : Nat) (memory : Mem) : Bool × Cache × Mem :=
  let c := { c with accesses := c.accesses + 1 }
  let it := getIndexAndTag address
  let line := c.lines it.1
  let offset := address &&& offsetMask
  let memory := memSet memory address value
  if line.valid ∧ line.tag = it.2 then
    (true,
     { c with hits := c.hits + 1,
              lines := updLines c.lines it.1 { line with data := updData line.data offset value } },
     memory)
  else
    (true, { c with misses := c.misses + 1 }, memory)

/-- `MemoryUnit`: sparse memory map plus the direct-mapped cache. -/
structure MemoryUnit where
  memory : Mem
  cache : Cache

/-- `MemoryUnit.__init__` -/
def MemoryUnit.init : MemoryUnit := { memory := [], cache := Cache.init }

/-- `MemoryUnit.read_byte`: negative addresses fail, others go through the cache. -/
def MemoryUnit.readByte (s : MemoryUnit) (address : Int) : Option Nat × MemoryUnit :=
  if address < 0 then (none, s)
  else
    let r := s.cache.readByte address.toNat s.memory
    (some r.1, { s with cache := r.2 })

/-- `MemoryUnit.write_byte`: negative addresses and values outside `[0,255]`
fail, others go through the cache. -/
def MemoryUnit.writeByte (s : MemoryUnit) (address : Int) (value : Int) : Bool × MemoryUnit :=
  if address < 0 then (false, s)
  else if value < 0 ∨ value > 255 then (false, s)
  else
    let r := s.cache.writeByte address.toNat value.toNat s.memory
    (r.1, { memory := r.2.2, cache := r.2.1 })

/-- `MemoryUnit._update_cache_if_present` -/
def MemoryUnit.updateCacheIfPresent (s : MemoryUnit) (address value : Nat) : MemoryUnit :=
  let it := getIndexAndTag address
  let line := s.cache.lines it.1
  if line.valid ∧ line.tag = it.2 then
    let offset := address &&& offsetMask
    { s with cache :=
        { s.cache with lines := updLines s.cache.lines it.1 { line with data := updData line.data offset value } } }
  else s

/-- One byte assignment of `MemoryUnit.load_program`'s inner loop:
`self.memory[write_addr] = byte_value` followed by
`self._update_cache_if_present(write_addr, byte_value)`. Addresses and byte
values come out of the hexadecimal parse, hence are non-negative. -/
def MemoryUnit.loadByteWrite (s : MemoryUnit) (address value : Nat) : MemoryUnit :=
  ({ s with memory := memSet s.memory address value }).updateCacheIfPresent address value

/-- `MemoryUnit.load_program`, after the textual hex parsing: the sequence of
`(write_addr, byte_value)` assignments the parsed program performs. -/
def MemoryUnit.loadProgram (s : MemoryUnit) (prog : List (Nat × Nat)) : MemoryUnit :=
  prog.foldl (fun s p => s.loadByteWrite p.1 p.2) s

/-- The sign adjustment `if value & (1 << 63): value = value - (1 << 64)`
shared by `read_memory_64` and `get_nonzero_memory`. -/
def toSigned64 (value : Nat) : Int :=
  if value &&& (1 <<< 63) ≠ 0 then (value : Int) - ((1 <<< 64 : Nat) : Int) else (value : Int)

/-- The byte-collecting loop of `MemoryUnit.read_memory_64`:
`for i in range(8): ... value |= byte_value << (i * 8)`, aborting with `None`
as soon as a byte read fails. The first `Nat` argument counts the remaining
iterations, the second is the loop index `i`. -/
def MemoryUnit.read64Loop (address : Int) : Nat → Nat → Nat → MemoryUnit → Option Nat × MemoryUnit
  | 0, _, value, s => (some value, s)
  | n + 1, i, value, s =>
    let r := s.readByte (address + (i : Int))
    match r.1 with
    | none => (none, r.2)
    | some b => MemoryUnit.read64Loop address n (i + 1) (value ||| (b <<< (i * 8))) r.2

/-- `MemoryUnit.read_memory_64` -/
def MemoryUnit.readMemory64 (s : MemoryUnit) (address : Int) : Option Int × MemoryUnit :=
  if address < 0 then (none, s)
  else
    let r := MemoryUnit.read64Loop address 8 0 0 s
    match r.1 with
    | none => (none, r.2)
    | some value => (some (toSigned64 value), r.2)

/-- The byte-writing loop of `MemoryUnit.write_memory_64`:
`for i in range(8): byte_value = (value >> (i * 8)) & 0xFF; ...`, aborting
with `False` as soon as a byte write fails. Python's `>>` on an `int` is
floor division by the power of two and `& 0xFF` is the non-negative
remainder mod 256, i.e. `Int.fdiv` and `Int.emod`. -/
def MemoryUnit.write64Loop (address : Int) (value : Int) : Nat → Nat → MemoryUnit → Bool × MemoryUnit
  | 0, _, s => (true, s)
  | n + 1, i, s =>
    let byteValue := (value.fdiv (2 ^ (i * 8))).emod 256
    let r := s.writeByte (address + (i : Int)) byteValue
    if r.1 then MemoryUnit.write64Loop address value n (i + 1) r.2 else (false, r.2)

/-- `MemoryUnit.write_memory_64` -/
def MemoryUnit.writeMemory64 (s : MemoryUnit) (address : Int) (value : Int) : Bool × MemoryUnit :=
  if address < 0 then (false, s)
  else if address % 8 ≠ 0 then (false, s)
  else
    let v := if value < 0 then ((1 <<< 64 : Nat) : Int) + value else value
    MemoryUnit.write64Loop address v 8 0 s

/-- `MemoryUnit.push_value` -/
def MemoryUnit.pushValue (s : MemoryUnit) (value rsp : Int) : Option Int × MemoryUnit :=
  let newRsp := rsp - 8
  if newRsp < 0 then (none, s)
  else
    let r := s.writeMemory64 newRsp value
    if r.1 then (some newRsp, r.2) else (none, r.2)

/-- `MemoryUnit.pop_value` -/
def MemoryUnit.popValue (s : MemoryUnit) (rsp : Int) : Option (Int × Int) × MemoryUnit :=
  if rsp < 0 then (none, s)
  else
    let r := s.readMemory64 rsp
    match r.1 with
    | none => (none, r.2)
    | some value => (some (value, rsp + 8), r.2)

/-- `MemoryUnit.extract_immediate` -/
def MemoryUnit.extractImmediate (s : MemoryUnit) (startAddress : Int) : Option Int × MemoryUnit :=
  s.readMemory64 startAddress

/-- The little-endian accumulation loop of `get_nonzero_memory`:
`value |= byte_value << (i * 8)` over `i in range(8)`. -/
def wordAt (m : Mem) (baseAddr : Nat) : Nat :=
  (List.range 8).foldl (fun value i => value ||| (memGet m (baseAddr + i) <<< (i * 8))) 0

/-- The `has_nonzero` flag of `get_nonzero_memory`'s window loop. -/
def windowNonzero (m : Mem) (baseAddr : Nat) : Bool :=
  (List.range 8).any (fun i => memGet m (baseAddr + i) != 0)

/-- `MemoryUnit.get_nonzero_memory`: collect every 8-byte-aligned window that
contains a mapped address and has some non-zero byte, as a signed little-endian
64-bit value, and return the entries sorted by key (`dict(sorted(...))` sorts
the `(key, value)` tuples; keys are distinct after `dedup`, so this is a sort
by numeric key). `addr & ~0x7` is written `addr - (addr &&& 0x7)`. -/
def MemoryUnit.getNonzeroMemory (s : MemoryUnit) : List (Nat × Int) :=
  let usedAddresses := s.memory.map (fun p => p.1)
  let alignedAddresses := (usedAddresses.map (fun addr => addr - (addr &&& 0x7))).dedup
  let nonzeroMem := alignedAddresses.filterMap (fun baseAddr =>
    if windowNonzero s.memory baseAddr then some (baseAddr, toSigned64 (wordAt s.memory baseAddr))
    else none)
  nonzeroMem.mergeSort (fun p q => decide (p.1 < q.1 ∨ (p.1 = q.1 ∧ p.2 ≤ q.2)))

/-- `Instruction` (dataclass in `interfaces/types.py`); `opcode` holds the
opcode byte (see the header comment about opcode strings). -/
structure Instruction where
  opcode : Nat
  length : Nat
  rA : Nat := 0
  rB : Nat := 0
  immediate : Int := 0
  address : Int := 0
deriving DecidableEq

/-- `ExecutionUnit`: 15 registers, condition codes stored as the ints 0/1. -/
structure ExecutionUnit where
  registers : List Int
  ZF : Nat
  SF : Nat
  OF : Nat

/-- `ExecutionUnit.__init__`: `[0]*15` then the (redundant) `registers[4] = 0`. -/
def ExecutionUnit.init : ExecutionUnit :=
  { registers := (List.replicate 15 0).set 4 0, ZF := 1, SF := 0, OF := 0 }

/-- `self.instruction_set`, keyed by opcode byte instead of hex string. -/
def instructionSet (opcode : Nat) : Option String :=
  match opcode with
  | 0x00 => some "halt" | 0x10 => some "nop"
  | 0x20 => some "rrmovq" | 0x21 => some "cmovle" | 0x22 => some "cmovl" | 0x23 => some "cmove"
  | 0x24 => some "cmovne" | 0x25 => some "cmovge" | 0x26 => some "cmovg"
  | 0x30 => some "irmovq" | 0x40 => some "rmmovq" | 0x50 => some "mrmovq"
  | 0x60 => some "addq" | 0x61 => some "subq" | 0x62 => some "andq" | 0x63 => some "xorq"
  | 0x70 => some "jmp" | 0x71 => some "jle" | 0x72 => some "jl" | 0x73 => some "je"
  | 0x74 => some "jne" | 0x75 => some "jge" | 0x76 => some "jg"
  | 0x80 => some "call" | 0x90 => some "ret" | 0xA0 => some "pushq" | 0xB0 => some "popq"
  | _ => none

/-- `ExecutionUnit.get_register_value`: out-of-range index reads as 0. The
`0 <= reg_index` half of the Python bound check is vacuous for `Nat`. -/
def ExecutionUnit.getRegisterValue (e : ExecutionUnit) (regIndex : Nat) : Int :=
  if regIndex < e.registers.length then e.registers.getD regIndex 0 else 0

/-- `ExecutionUnit.set_register_value`: out-of-range index is a no-op
returning `False`. -/
def ExecutionUnit.setRegisterValue (e : ExecutionUnit) (regIndex : Nat) (value : Int) :
    Bool × ExecutionUnit :=
  if regIndex < e.registers.length then
    (true, { e with registers := e.registers.set regIndex value })
  else (false, e)

/-- `ExecutionUnit.decode_instruction`. The two `raise` sites (unreadable
opcode byte, opcode absent from the table) are caught by the method's own
`except`, which returns the fallback `Instruction(opcode='00', length=1,
address=pc)`; nothing later in the method can raise, and `read_byte` /
`extract_immediate` failures after the opcode byte leave the corresponding
fields at their defaults. Every byte read threads the cache state. -/
def ExecutionUnit.decodeInstruction (pc : Int) (m : MemoryUnit) : Instruction × MemoryUnit :=
  let fallback : Instruction := { opcode := 0x00, length := 1, address := pc }
  let r0 := m.readByte pc
  match r0.1 with
  | none => (fallback, r0.2)
  | some opcodeByte =>
    match instructionSet opcodeByte with
    | none => (fallback, r0.2)
    | some instrType =>
      let instr : Instruction := { opcode := opcodeByte, length := 1, address := pc }
      if instrType = "rrmovq" ∨ opcodeByte / 16 = 2 then
        let instr := { instr with length := 2 }
        let r1 := r0.2.readByte (pc + 1)
        match r1.1 with
        | some byte2 => ({ instr with rA := (byte2 >>> 4) &&& 0xF, rB := byte2 &&& 0xF }, r1.2)
        | none => (instr, r1.2)
      else if instrType = "irmovq" then
        let instr := { instr with length := 10 }
        let r1 := r0.2.readByte (pc + 1)
        let instr := match r1.1 with
          | some byte2 => { instr with rB := byte2 &&& 0xF }
          | none => instr
        let r2 := r1.2.extractImmediate (pc + 2)
        match r2.1 with
        | some imm => ({ instr with immediate := imm }, r2.2)
        | none => (instr, r2.2)
      else if instrType = "rmmovq" ∨ instrType = "mrmovq" then
        let instr := { instr with length := 10 }
        let r1 := r0.2.readByte (pc + 1)
        let instr := match r1.1 with
          | some byte2 => { instr with rA := (byte2 >>> 4) &&& 0xF, rB := byte2 &&& 0xF }
          | none => instr
        let r2 := r1.2.extractImmediate (pc + 2)
        match r2.1 with
        | some imm => ({ instr with immediate := imm }, r2.2)
        | none => (instr, r2.2)
      else if instrType = "addq" ∨ instrType = "subq" ∨ instrType = "andq" ∨ instrType = "xorq" then
        let instr := { instr with length := 2 }
        let r1 := r0.2.readByte (pc + 1)
        match r1.1 with
        | some byte2 => ({ instr with rA := (byte2 >>> 4) &&& 0xF, rB := byte2 &&& 0xF }, r1.2)
        | none => (instr, r1.2)
      else if opcodeByte / 16 = 7 ∨ instrType = "call" then
        let instr := { instr with length := 9 }
        let r1 := r0.2.extractImmediate (pc + 1)
        match r1.1 with
        | some imm => ({ instr with immediate := imm }, r1.2)
        | none => (instr, r1.2)
      else if instrType = "pushq" ∨ instrType = "popq" then
        let instr := { instr with length := 2 }
        let r1 := r0.2.readByte (pc + 1)
        match r1.1 with
        | some byte2 => ({ instr with rA := (byte2 >>> 4) &&& 0xF }, r1.2)
        | none => (instr, r1.2)
      else
        -- `nop`, `halt`, `ret`: length stays 1
        (instr, r0.2)

/-- `ExecutionUnit.update_condition_codes` -/
def ExecutionUnit.updateConditionCodes (e : ExecutionUnit) (result valA valB : Int)
    (operation : String) : ExecutionUnit :=
  let e := { e with ZF := if result = 0 then 1 else 0, SF := if result < 0 then 1 else 0 }
  if operation = "add" then
    { e with OF := if (valA > 0 ∧ valB > 0 ∧ result < 0) ∨ (valA < 0 ∧ valB < 0 ∧ result > 0)
                   then 1 else 0 }
  else if operation = "sub" then
    { e with OF := if (valB ≥ 0 ∧ valA < 0 ∧ result < 0) ∨ (valB < 0 ∧ valA ≥ 0 ∧ result > 0)
                   then 1 else 0 }
  else
    { e with OF := 0 }

/-- `ExecutionUnit.execute_addq`: note that `valB + valA` is computed with
Python's arbitrary-precision integers and stored without any 64-bit wrap. -/
def ExecutionUnit.executeAddq (e : ExecutionUnit) (rA rB : Nat) : Bool × ExecutionUnit :=
  let valA := e.getRegisterValue rA
  let valB := e.getRegisterValue rB
  let result := valB + valA
  let e := (e.setRegisterValue rB result).2
  (true, e.updateConditionCodes result valA valB "add")

/-- `ExecutionUnit.execute_subq` -/
def ExecutionUnit.executeSubq (e : ExecutionUnit) (rA rB : Nat) : Bool × ExecutionUnit :=
  let valA := e.getRegisterValue rA
  let valB := e.getRegisterValue rB
  let result := valB - valA
  let e := (e.setRegisterValue rB result).2
  (true, e.updateConditionCodes result valA valB "sub")

/-- `ExecutionUnit.execute_andq` (`Int.land` is Python's `&` on ints). -/
def ExecutionUnit.executeAndq (e : ExecutionUnit) (rA rB : Nat) : Bool × ExecutionUnit :=
  let valA := e.getRegisterValue rA
  let valB := e.getRegisterValue rB
  let result := Int.land valB valA
  let e := (e.setRegisterValue rB result).2
  (true, e.updateConditionCodes result valA valB "and")

/-- `ExecutionUnit.execute_xorq` (`Int.xor` is Python's `^` on ints). -/
def ExecutionUnit.executeXorq (e : ExecutionUnit) (rA rB : Nat) : Bool × ExecutionUnit :=
  let valA := e.getRegisterValue rA
  let valB := e.getRegisterValue rB
  let result := Int.xor valB valA
  let e := (e.setRegisterValue rB result).2
  (true, e.updateConditionCodes result valA valB "xor")

/-- `ExecutionUnit.execute_arithmetic` -/
def ExecutionUnit.executeArithmetic (e : ExecutionUnit) (instr : Instruction) :
    Bool × ExecutionUnit :=
  if instructionSet instr.opcode = some "addq" then e.executeAddq instr.rA instr.rB
  else if instructionSet instr.opcode = some "subq" then e.executeSubq instr.rA instr.rB
  else if instructionSet instr.opcode = some "andq" then e.executeAndq instr.rA instr.rB
  else if instructionSet instr.opcode = some "xorq" then e.executeXorq instr.rA instr.rB
  else (false, e)

/-- `ExecutionUnit.execute_rrmovq` -/
def ExecutionUnit.executeRrmovq (e : ExecutionUnit) (rA rB : Nat) : Bool × ExecutionUnit :=
  (true, (e.setRegisterValue rB (e.getRegisterValue rA)).2)

/-- `ExecutionUnit.execute_irmovq` -/
def ExecutionUnit.executeIrmovq (e : ExecutionUnit) (rB : Nat) (immediate : Int) :
    Bool × ExecutionUnit :=
  (true, (e.setRegisterValue rB immediate).2)

/-- `ExecutionUnit.execute_rmmovq` -/
def ExecutionUnit.executeRmmovq (e : ExecutionUnit) (rA rB : Nat) (offset : Int)
    (m : MemoryUnit) : Bool × ExecutionUnit × MemoryUnit :=
  let address := e.getRegisterValue rB + offset
  let value := e.getRegisterValue rA
  let r := m.writeMemory64 address value
  (r.1, e, r.2)

/-- `ExecutionUnit.execute_mrmovq` -/
def ExecutionUnit.executeMrmovq (e : ExecutionUnit) (rA rB : Nat) (offset : Int)
    (m : MemoryUnit) : Bool × ExecutionUnit × MemoryUnit :=
  let address := e.getRegisterValue rB + offset
  let r := m.readMemory64 address
  match r.1 with
  | some value => (true, (e.setRegisterValue rA value).2, r.2)
  | none => (false, e, r.2)

/-- `ExecutionUnit.execute_move` -/
def ExecutionUnit.executeMove (e : ExecutionUnit) (instr : Instruction) (m : MemoryUnit) :
    Bool × ExecutionUnit × MemoryUnit :=
  if instructionSet instr.opcode = some "rrmovq" then
    let r := e.executeRrmovq instr.rA instr.rB
    (r.1, r.2, m)
  else if instructionSet instr.opcode = some "irmovq" then
    let r := e.executeIrmovq instr.rB instr.immediate
    (r.1, r.2, m)
  else if instructionSet instr.opcode = some "rmmovq" then
    e.executeRmmovq instr.rA instr.rB instr.immediate m
  else if instructionSet instr.opcode = some "mrmovq" then
    e.executeMrmovq instr.rA instr.rB instr.immediate m
  else (false, e, m)

/-- `ExecutionUnit.execute_conditional_move`: the condition code is the low
hex digit of the opcode (`instr.opcode[1]`); Python truthiness of the int
flags becomes `≠ 0`. Always returns `True`. -/
def ExecutionUnit.executeConditionalMove (e : ExecutionUnit) (instr : Instruction) :
    Bool × ExecutionUnit :=
  let conditionCode := instr.opcode % 16
  let conditionMet : Bool :=
    if conditionCode = 0 then true
    else if conditionCode = 1 then e.ZF != 0 || e.SF != e.OF
    else if conditionCode = 2 then e.SF != e.OF
    else if conditionCode = 3 then e.ZF != 0
    else if conditionCode = 4 then e.ZF == 0
    else if conditionCode = 5 then e.SF == e.OF
    else if conditionCode = 6 then e.ZF == 0 && e.SF == e.OF
    else false
  if conditionMet then
    (true, (e.setRegisterValue instr.rB (e.getRegisterValue instr.rA)).2)
  else (true, e)

/-- The canonical register names (`reg_names` in `get_all_registers`,
identical to `REGISTER_NAMES` in `interfaces/types.py`). -/
def regNames : List String :=
  ["rax", "rcx", "rdx", "rbx", "rsp", "rbp", "rsi", "rdi",
   "r8", "r9", "r10", "r11", "r12", "r13", "r14"]

/-- `ExecutionUnit.get_all_registers`: `{name: registers[i] for i, name in
enumerate(reg_names)}` (the register list always has length 15 in any
reachable state, so the `getD` default is never used there). -/
def ExecutionUnit.getAllRegisters (e : ExecutionUnit) : List (String × Int) :=
  regNames.enum.map (fun p => (p.2, e.registers.getD p.1 0))

/-- `ExecutionUnit.get_condition_codes` -/
def ExecutionUnit.getConditionCodes (e : ExecutionUnit) : List (String × Nat) :=
  [("ZF", e.ZF), ("SF", e.SF), ("OF", e.OF)]

/-- `CPUStatus` (`interfaces/types.py`). -/
inductive CPUStatus
  | AOK
  | HLT
  | ADR
  | INS
deriving DecidableEq

/-- The `.value` of each `CPUStatus` member. -/
def CPUStatus.value : CPUStatus → Nat
  | .AOK => 1
  | .HLT => 2
  | .ADR => 3
  | .INS => 4

/-- The per-cycle snapshot record (`CPUState` TypedDict in
`interfaces/types.py`); the Python dicts become ordered association lists,
preserving the key order in which `generate_state_log` builds them. -/
structure CPUState where
  CC : List (String × Nat)
  MEM : List (String × Int)
  PC : Int
  REG : List (String × Int)
  STAT : Nat
deriving DecidableEq

/-- `ControlUnit`: the mutable simulator state. -/
structure ControlUnit where
  memory : MemoryUnit
  execution : ExecutionUnit
  PC : Int
  status : CPUStatus

/-- `dict.get(key, default)` on a string-keyed association list of ints. -/
def lookupD (l : List (String × Int)) (k : String) (d : Int) : Int := (l.lookup k).getD d

/-- `dict.get(key, default)` on a string-keyed association list of nats. -/
def lookupDNat (l : List (String × Nat)) (k : String) (d : Nat) : Nat := (l.lookup k).getD d

/-- `ControlUnit.generate_state_log`: registers re-ordered into the reference
order (with a default of 512 for an absent `rsp` entry), the non-zero memory
re-keyed by the decimal text of each address and sorted by string key
(`memory_items.sort(key=lambda x: x[0])`), condition codes re-ordered. -/
def ControlUnit.generateStateLog (cu : ControlUnit) : CPUState :=
  let registersRaw := cu.execution.getAllRegisters
  let registers : List (String × Int) :=
    [("r10", lookupD registersRaw "r10" 0), ("r11", lookupD registersRaw "r11" 0),
     ("r12", lookupD registersRaw "r12" 0), ("r13", lookupD registersRaw "r13" 0),
     ("r14", lookupD registersRaw "r14" 0), ("r8", lookupD registersRaw "r8" 0),
     ("r9", lookupD registersRaw "r9" 0), ("rax", lookupD registersRaw "rax" 0),
     ("rbp", lookupD registersRaw "rbp" 0), ("rbx", lookupD registersRaw "rbx" 0),
     ("rcx", lookupD registersRaw "rcx" 0), ("rdi", lookupD registersRaw "rdi" 0),
     ("rdx", lookupD registersRaw "rdx" 0), ("rsi", lookupD registersRaw "rsi" 0),
     ("rsp", lookupD registersRaw "rsp" 512)]
  let memoryRaw := cu.memory.getNonzeroMemory
  let memoryItems := memoryRaw.map (fun p => (toString p.1, p.2))
  let memory := memoryItems.mergeSort (fun a b => decide (a.1 ≤ b.1))
  let conditionCodesRaw := cu.execution.getConditionCodes
  let conditionCodes : List (String × Nat) :=
    [("OF", lookupDNat conditionCodesRaw "OF" 0), ("SF", lookupDNat conditionCodesRaw "SF" 0),
     ("ZF", lookupDNat conditionCodesRaw "ZF" 1)]
  { CC := conditionCodes, MEM := memory, PC := cu.PC, REG := registers,
    STAT := cu.status.value }

/-- `ControlUnit.check_jump_condition` (`cc['ZF']` etc. always succeed since
`get_condition_codes` populates all three keys; truthiness of the int flags
is `≠ 0`). -/
def ControlUnit.checkJumpCondition (cu : ControlUnit) (jumpType : String) : Bool :=
  let cc := cu.execution.getConditionCodes
  let zf := lookupDNat cc "ZF" 0
  let sf := lookupDNat cc "SF" 0
  let of := lookupDNat cc "OF" 0
  if jumpType = "jmp" then true
  else if jumpType = "jle" then zf != 0 || sf != of
  else if jumpType = "jl" then sf != of
  else if jumpType = "je" then zf != 0
  else if jumpType = "jne" then zf == 0
  else if jumpType = "jge" then sf == of
  else if jumpType = "jg" then zf == 0 && sf == of
  else false

/-- `ControlUnit.execute_jump` -/
def ControlUnit.executeJump (cu : ControlUnit) (instr : Instruction) : Bool × ControlUnit :=
  let jumpType := (instructionSet instr.opcode).getD ""
  if cu.checkJumpCondition jumpType then (true, { cu with PC := instr.immediate })
  else (false, cu)

/-- `ControlUnit.execute_call` -/
def ControlUnit.executeCall (cu : ControlUnit) (instr : Instruction) : Bool × ControlUnit :=
  let returnAddress := cu.PC + (instr.length : Int)
  let rsp := cu.execution.getRegisterValue 4
  let r := cu.memory.pushValue returnAddress rsp
  match r.1 with
  | none => (false, { cu with memory := r.2 })
  | some newRsp =>
    let e := (cu.execution.setRegisterValue 4 newRsp).2
    (true, { cu with memory := r.2, execution := e, PC := instr.immediate })

/-- `ControlUnit.execute_ret` -/
def ControlUnit.executeRet (cu : ControlUnit) : Bool × ControlUnit :=
  let rsp := cu.execution.getRegisterValue 4
  let r := cu.memory.popValue rsp
  match r.1 with
  | none => (false, { cu with memory := r.2 })
  | some v =>
    let e := (cu.execution.setRegisterValue 4 v.2).2
    (true, { cu with memory := r.2, execution := e, PC := v.1 })

/-- `ControlUnit.execute_pushq`: the stack-pointer register is updated to
`rsp - 8` unconditionally, whether or not the memory write succeeded. -/
def ControlUnit.executePushq (cu : ControlUnit) (instr : Instruction) : Bool × ControlUnit :=
  let value := cu.execution.getRegisterValue instr.rA
  let rsp := cu.execution.getRegisterValue 4
  let newRsp := rsp - 8
  let r := cu.memory.writeMemory64 newRsp value
  let e := (cu.execution.setRegisterValue 4 newRsp).2
  (r.1, { cu with memory := r.2, execution := e })

/-- `ControlUnit.execute_popq`: on a failed pop nothing but the cache side of
the memory unit changes; on success the stack pointer is written first, then
the destination register. -/
def ControlUnit.executePopq (cu : ControlUnit) (instr : Instruction) : Bool × ControlUnit :=
  let rsp := cu.execution.getRegisterValue 4
  let r := cu.memory.popValue rsp
  match r.1 with
  | none => (false, { cu with memory := r.2 })
  | some v =>
    let e := (cu.execution.setRegisterValue 4 v.2).2
    let e := (e.setRegisterValue instr.rA v.1).2
    (true, { cu with memory := r.2, execution := e })

/-- `ControlUnit.step`: snapshot-only when not `AOK`; otherwise decode at the
program counter and dispatch on the mnemonic. Nothing in the dispatch body
can raise (the only `raise` sites are inside `decode_instruction`, which
catches them itself), so the method's `except` branch that would set `INS` is
unreachable; the final `else` sets `INS` for an unrecognized mnemonic.
Always returns a snapshot of the resulting state. -/
def ControlUnit.step (cu : ControlUnit) : ControlUnit × CPUState :=
  if cu.status ≠ CPUStatus.AOK then (cu, cu.generateStateLog)
  else
    let d := ExecutionUnit.decodeInstruction cu.PC cu.memory
    let instr := d.1
    let cu := { cu with memory := d.2 }
    let instrType := (instructionSet instr.opcode).getD ""
    let cu :=
      if instrType = "halt" then { cu with status := CPUStatus.HLT }
      else if instrType = "nop" then { cu with PC := cu.PC + (instr.length : Int) }
      else if instrType = "rrmovq" ∨ instr.opcode / 16 = 2 then
        let r := cu.execution.executeConditionalMove instr
        { cu with execution := r.2, PC := cu.PC + (instr.length : Int) }
      else if instrType = "irmovq" ∨ instrType = "rmmovq" ∨ instrType = "mrmovq" then
        let r := cu.execution.executeMove instr cu.memory
        let cu := { cu with execution := r.2.1, memory := r.2.2 }
        if ¬ r.1 then { cu with status := CPUStatus.ADR }
        else { cu with PC := cu.PC + (instr.length : Int) }
      else if instrType = "addq" ∨ instrType = "subq" ∨ instrType = "andq" ∨
              instrType = "xorq" then
        let r := cu.execution.executeArithmetic instr
        { cu with execution := r.2, PC := cu.PC + (instr.length : Int) }
      else if instrType = "pushq" then
        let r := cu.executePushq instr
        if ¬ r.1 then { r.2 with status := CPUStatus.ADR }
        else { r.2 with PC := r.2.PC + (instr.length : Int) }
      else if instrType = "popq" then
        let r := cu.executePopq instr
        if ¬ r.1 then { r.2 with status := CPUStatus.ADR }
        else { r.2 with PC := r.2.PC + (instr.length : Int) }
      else if instrType = "call" then
        let r := cu.executeCall instr
        if ¬ r.1 then { r.2 with status := CPUStatus.ADR } else r.2
      else if instrType = "ret" then
        let r := cu.executeRet
        if ¬ r.1 then { r.2 with status := CPUStatus.ADR } else r.2
      else if instr.opcode / 16 = 7 then
        let r := cu.executeJump instr
        if ¬ r.1 then { r.2 with PC := r.2.PC + (instr.length : Int) } else r.2
      else { cu with status := CPUStatus.INS }
    (cu, cu.generateStateLog)

/-- `ControlUnit.run_until_halt`, indexed by fuel bounding the number of loop
iterations (the Python `while` loop can diverge, e.g. on a self-jump): while
the status is `AOK`, step, append the returned snapshot, and break as soon as
the resulting status is no longer `AOK`. -/
def ControlUnit.runUntilHalt : Nat → ControlUnit → List CPUState × ControlUnit
  | 0, cu => ([], cu)
  | fuel + 1, cu =>
    if cu.status ≠ CPUStatus.AOK then ([], cu)
    else
      let r := cu.step
      if r.1.status ≠ CPUStatus.AOK then ([r.2], r.1)
      else
        let rest := ControlUnit.runUntilHalt fuel r.1
        (r.2 :: rest.1, rest.2)

/-- The simulator as `main.py` assembles it: fresh units, program loaded,
`PC = 0`, status `AOK`. -/
def initControlUnit (prog : List (Nat × Nat)) : ControlUnit :=
  { memory := MemoryUnit.init.loadProgram prog, execution := ExecutionUnit.init,
    PC := 0, status := CPUStatus.AOK }

/-! ### Arithmetic facts about the cache geometry -/

theorem numLines_eq : numLines = 128 := rfl

theorem offsetBits_eq : offsetBits = 3 := by decide

theorem indexBits_eq : indexBits = 7 := by decide

theorem offsetMask_eq : offsetMask = 7 := by decide

theorem indexMask_eq : indexMask = 127 := by decide

theorem and_seven (x : Nat) : x &&& 7 = x % 8 := by
  have h := Nat.and_pow_two_sub_one_eq_mod x 3
  norm_num at h
  exact h

theorem and_oneTwoSeven (x : Nat) : x &&& 127 = x % 128 := by
  have h := Nat.and_pow_two_sub_one_eq_mod x 7
  norm_num at h
  exact h

theorem getIndexAndTag_eq (a : Nat) : getIndexAndTag a = (a / 8 % 128, a / 1024) := by
  rw [getIndexAndTag, offsetBits_eq, indexBits_eq, indexMask_eq]
  rw [Nat.shiftRight_eq_div_pow, Nat.shiftRight_eq_div_pow, and_oneTwoSeven]

/-- The base address of the line holding `a`, reconstructed from index and tag. -/
def lineBase (index tag : Nat) : Nat := tag * 1024 + index * 8

theorem lineBase_getIndexAndTag (a : Nat) :
    lineBase (getIndexAndTag a).1 (getIndexAndTag a).2 = a - a % 8 := by
  rw [getIndexAndTag_eq, lineBase]
  omega

theorem lineBase_add_eq_iff (a i t j : Nat) (hi : i < 128) (hj : j < 8) :
    lineBase i t + j = a ↔ i = (getIndexAndTag a).1 ∧ t = (getIndexAndTag a).2 ∧ j = a % 8 := by
  rw [getIndexAndTag_eq, lineBase]
  omega

/-! ### Lemmas about the sparse memory map -/

theorem lineSize_eq : lineSize = 8 := rfl

theorem lookup_filter_ne (m : Mem) (a b : Nat) (h : b ≠ a) :
    (m.filter (fun p => p.1 != a)).lookup b = m.lookup b := by
  induction m with
  | nil => rfl
  | cons p t ih =>
    by_cases hp : p.1 = a
    · have h1 : (p.1 != a) = false := by simp [hp]
      have h2 : (b == p.1) = false := by simp [hp, h]
      simp [List.filter_cons, h1, List.lookup, h2, ih]
    · have h1 : (p.1 != a) = true := by simp [hp]
      by_cases hb : b = p.1
      · simp [List.filter_cons, h1, List.lookup, hb]
      · have h2 : (b == p.1) = false := by simp [hb]
        simp [List.filter_cons, h1, List.lookup, h2, ih]

theorem memGet_memSet_self (m : Mem) (a v : Nat) : memGet (memSet m a v) a = v := by
  simp [memGet, memSet, List.lookup]

theorem memGet_memSet_ne (m : Mem) (a v b : Nat) (h : b ≠ a) :
    memGet (memSet m a v) b = memGet m b := by
  have hb : (b == a) = false := by simp [h]
  simp [memGet, memSet, List.lookup, hb, lookup_filter_ne m a b h]

/-! ### Cache coherence (write-through invariant) -/

/-- Every valid cache line agrees byte-for-byte with the backing memory on the
address range it caches (the range is reconstructed from the line's index and
tag). This is the write-through guarantee of the spec. -/
def Coherent (c : Cache) (mem : Mem) : Prop :=
  ∀ i, i < numLines → (c.lines i).valid = true →
    ∀ j, j < lineSize → (c.lines i).data j = memGet mem (lineBase i (c.lines i).tag + j)

theorem coherent_init : Coherent Cache.init [] := by
  intro i _ hv
  simp [Cache.init, CacheLine.init] at hv

theorem index_lt (a : Nat) : (getIndexAndTag a).1 < 128 := by
  rw [getIndexAndTag_eq]
  exact Nat.mod_lt _ (by norm_num)

theorem offset_lt (a : Nat) : a &&& offsetMask < 8 := by
  rw [offsetMask_eq, and_seven]
  exact Nat.mod_lt _ (by norm_num)

theorem offset_le (a : Nat) : a &&& offsetMask ≤ a := by
  rw [offsetMask_eq, and_seven]
  exact Nat.mod_le _ _

theorem lineBase_add_offset (a : Nat) :
    lineBase (getIndexAndTag a).1 (getIndexAndTag a).2 + (a &&& offsetMask) = a := by
  rw [offsetMask_eq, and_seven, lineBase_getIndexAndTag]
  omega

theorem updLines_self (ls : Nat → CacheLine) (i : Nat) (l : CacheLine) :
    updLines ls i l i = l := by simp [updLines]

theorem updLines_ne (ls : Nat → CacheLine) (i : Nat) (l : CacheLine) (j : Nat) (h : j ≠ i) :
    updLines ls i l j = ls j := by simp [updLines, h]

theorem updData_self (d : Nat → Nat) (i v : Nat) : updData d i v i = v := by simp [updData]

theorem updData_ne (d : Nat → Nat) (i v j : Nat) (h : j ≠ i) : updData d i v j = d j := by
  simp [updData, h]

/-- On a coherent cache a read through the cache returns exactly the backing
memory byte. -/
theorem Cache.readByte_fst (c : Cache) (mem : Mem) (a : Nat) (hc : Coherent c mem) :
    (c.readByte a mem).1 = memGet mem a := by
  rw [Cache.readByte]
  simp only
  split
  · next h =>
    have h1 : (c.lines (getIndexAndTag a).1).valid = true := h.1
    have h2 : (c.lines (getIndexAndTag a).1).tag = (getIndexAndTag a).2 := h.2
    have := hc (getIndexAndTag a).1 (by rw [numLines_eq]; exact index_lt a) h1
      (a &&& offsetMask) (by rw [lineSize_eq]; exact offset_lt a)
    rw [h2, lineBase_add_offset] at this
    exact this
  · rw [Cache.loadLine]
    simp only
    rw [if_pos (show a &&& offsetMask < lineSize by rw [lineSize_eq]; exact offset_lt a)]
    have := offset_le a
    have heq : a - (a &&& offsetMask) + (a &&& offsetMask) = a := by omega
    rw [heq]

/-- Reading through the cache preserves coherence. -/
theorem coherent_readByte (c : Cache) (mem : Mem) (a : Nat) (hc : Coherent c mem) :
    Coherent (c.readByte a mem).2 mem := by
  rw [Cache.readByte]
  simp only
  split
  · next h => exact fun i hi hv j hj => hc i hi hv j hj
  · rw [Cache.loadLine]
    intro i hi hv j hj
    dsimp only at hv ⊢
    by_cases hieq : i = (getIndexAndTag a).1
    · subst hieq
      rw [updLines_self] at hv ⊢
      dsimp only at hv ⊢
      rw [if_pos hj]
      have hbase : a - (a &&& offsetMask) = lineBase (getIndexAndTag a).1 (getIndexAndTag a).2 := by
        rw [offsetMask_eq, and_seven, lineBase_getIndexAndTag]
      rw [hbase]
    · rw [updLines_ne _ _ _ _ hieq] at hv ⊢
      exact hc i hi hv j hj

/-- Writing through the cache preserves coherence for the updated memory. -/
theorem coherent_writeByte (c : Cache) (mem : Mem) (a v : Nat) (hc : Coherent c mem) :
    Coherent (c.writeByte a v mem).2.1 (c.writeByte a v mem).2.2 := by
  rw [Cache.writeByte]
  simp only
  split
  · next h =>
    have htag : (c.lines (getIndexAndTag a).1).tag = (getIndexAndTag a).2 := h.2
    have hvl : (c.lines (getIndexAndTag a).1).valid = true := h.1
    intro i hi hv j hj
    dsimp only at hv ⊢
    by_cases hieq : i = (getIndexAndTag a).1
    · subst hieq
      rw [updLines_self] at hv ⊢
      dsimp only at hv ⊢
      by_cases hjoff : j = (a &&& offsetMask)
      · subst hjoff
        rw [updData_self, htag, lineBase_add_offset, memGet_memSet_self]
      · rw [updData_ne _ _ _ _ hjoff]
        have hne : lineBase (getIndexAndTag a).1 (c.lines (getIndexAndTag a).1).tag + j ≠ a := by
          rw [htag]
          intro hcontra
          have hd := (lineBase_add_eq_iff a (getIndexAndTag a).1 (getIndexAndTag a).2 j
            (index_lt a) (by rw [lineSize_eq] at hj; exact hj)).mp hcontra
          apply hjoff
          rw [offsetMask_eq, and_seven]
          exact hd.2.2
        rw [memGet_memSet_ne _ _ _ _ hne]
        exact hc _ (by rw [numLines_eq]; exact index_lt a) hvl j hj
    · rw [updLines_ne _ _ _ _ hieq] at hv ⊢
      have hne : lineBase i (c.lines i).tag + j ≠ a := by
        intro hcontra
        exact hieq ((lineBase_add_eq_iff a i (c.lines i).tag j (by rw [numLines_eq] at hi; exact hi)
          (by rw [lineSize_eq] at hj; exact hj)).mp hcontra).1
      rw [memGet_memSet_ne _ _ _ _ hne]
      exact hc i hi hv j hj
  · next h =>
    intro i hi hv j hj
    dsimp only at hv ⊢
    have hne : lineBase i (c.lines i).tag + j ≠ a := by
      intro hcontra
      have hd := (lineBase_add_eq_iff a i (c.lines i).tag j (by rw [numLines_eq] at hi; exact hi)
        (by rw [lineSize_eq] at hj; exact hj)).mp hcontra
      exact h ⟨by rw [← hd.1]; exact hv, by rw [← hd.1, ← hd.2.1]⟩
    rw [memGet_memSet_ne _ _ _ _ hne]
    exact hc i hi hv j hj

/-- `_update_cache_if_present` (with the memory already updated to `memSet`)
preserves coherence; this is the cache side of a loader byte write. -/
theorem coherent_loadByteWrite (s : MemoryUnit) (a v : Nat)
    (hc : Coherent s.cache s.memory) :
    Coherent (s.loadByteWrite a v).cache (s.loadByteWrite a v).memory := by
  rw [MemoryUnit.loadByteWrite, MemoryUnit.updateCacheIfPresent]
  simp only
  split
  · next h =>
    have htag : (s.cache.lines (getIndexAndTag a).1).tag = (getIndexAndTag a).2 := h.2
    have hvl : (s.cache.lines (getIndexAndTag a).1).valid = true := h.1
    intro i hi hv j hj
    dsimp only at hv ⊢
    by_cases hieq : i = (getIndexAndTag a).1
    · subst hieq
      rw [updLines_self] at hv ⊢
      dsimp only at hv ⊢
      by_cases hjoff : j = (a &&& offsetMask)
      · subst hjoff
        rw [updData_self, htag, lineBase_add_offset, memGet_memSet_self]
      · rw [updData_ne _ _ _ _ hjoff]
        have hne : lineBase (getIndexAndTag a).1 (s.cache.lines (getIndexAndTag a).1).tag + j
            ≠ a := by
          rw [htag]
          intro hcontra
          have hd := (lineBase_add_eq_iff a (getIndexAndTag a).1 (getIndexAndTag a).2 j
            (index_lt a) (by rw [lineSize_eq] at hj; exact hj)).mp hcontra
          apply hjoff
          rw [offsetMask_eq, and_seven]
          exact hd.2.2
        rw [memGet_memSet_ne _ _ _ _ hne]
        exact hc _ (by rw [numLines_eq]; exact index_lt a) hvl j hj
    · rw [updLines_ne _ _ _ _ hieq] at hv ⊢
      have hne : lineBase i (s.cache.lines i).tag + j ≠ a := by
        intro hcontra
        exact hieq ((lineBase_add_eq_iff a i (s.cache.lines i).tag j
          (by rw [numLines_eq] at hi; exact hi)
          (by rw [lineSize_eq] at hj; exact hj)).mp hcontra).1
      rw [memGet_memSet_ne _ _ _ _ hne]
      exact hc i hi hv j hj
  · next h =>
    intro i hi hv j hj
    dsimp only at hv ⊢
    have hne : lineBase i (s.cache.lines i).tag + j ≠ a := by
      intro hcontra
      have hd := (lineBase_add_eq_iff a i (s.cache.lines i).tag j
        (by rw [numLines_eq] at hi; exact hi)
        (by rw [lineSize_eq] at hj; exact hj)).mp hcontra
      exact h ⟨by rw [← hd.1]; exact hv, by rw [← hd.1, ← hd.2.1]⟩
    rw [memGet_memSet_ne _ _ _ _ hne]
    exact hc i hi hv j hj

/-! ### Lifting coherence to `MemoryUnit` operations -/

theorem coherent_mu_readByte (s : MemoryUnit) (a : Int)
    (hc : Coherent s.cache s.memory) :
    Coherent (s.readByte a).2.cache (s.readByte a).2.memory := by
  rw [MemoryUnit.readByte]
  split
  · exact hc
  · exact coherent_readByte _ _ _ hc

theorem mu_readByte_memory (s : MemoryUnit) (a : Int) :
    (s.readByte a).2.memory = s.memory := by
  rw [MemoryUnit.readByte]
  split <;> rfl

theorem mu_readByte_fst (s : MemoryUnit) (a : Int) (hc : Coherent s.cache s.memory) :
    (s.readByte a).1 = if a < 0 then none else some (memGet s.memory a.toNat) := by
  rw [MemoryUnit.readByte]
  split
  · rfl
  · dsimp only
    rw [Cache.readByte_fst _ _ _ hc]

theorem coherent_mu_writeByte (s : MemoryUnit) (a v : Int)
    (hc : Coherent s.cache s.memory) :
    Coherent (s.writeByte a v).2.cache (s.writeByte a v).2.memory := by
  rw [MemoryUnit.writeByte]
  split
  · exact hc
  · split
    · exact hc
    · exact coherent_writeByte _ _ _ _ hc

/-- The memory-op alphabet of claim C6: byte reads, byte writes, and
program-load byte writes. -/
inductive MemOp where
  | readB (address : Int)
  | writeB (address value : Int)
  | loadW (address value : Nat)

/-- Run one memory operation for its state effect. -/
def MemoryUnit.applyOp (s : MemoryUnit) : MemOp → MemoryUnit
  | .readB a => (s.readByte a).2
  | .writeB a v => (s.writeByte a v).2
  | .loadW a v => s.loadByteWrite a v

/-- Run a sequence of memory operations from the freshly constructed unit. -/
def applyOps (ops : List MemOp) : MemoryUnit :=
  ops.foldl MemoryUnit.applyOp MemoryUnit.init

theorem coherent_applyOp (s : MemoryUnit) (op : MemOp) (hc : Coherent s.cache s.memory) :
    Coherent (s.applyOp op).cache (s.applyOp op).memory := by
  cases op with
  | readB a => exact coherent_mu_readByte s a hc
  | writeB a v => exact coherent_mu_writeByte s a v hc
  | loadW a v => exact coherent_loadByteWrite s a v hc

theorem coherent_foldl (ops : List MemOp) :
    ∀ s : MemoryUnit, Coherent s.cache s.memory →
      Coherent (ops.foldl MemoryUnit.applyOp s).cache (ops.foldl MemoryUnit.applyOp s).memory := by
  induction ops with
  | nil => exact fun s hc => hc
  | cons op t ih => exact fun s hc => ih _ (coherent_applyOp s op hc)

theorem coherent_applyOps (ops : List MemOp) :
    Coherent (applyOps ops).cache (applyOps ops).memory :=
  coherent_foldl ops MemoryUnit.init coherent_init

/-- C6: for every sequence of byte reads, byte writes, and program-load
writes, every valid cache line's bytes equal the corresponding bytes of
memory (write-through invariant), and reading any address through the cache
returns exactly what the uncached direct model (`memGet` on the memory map)
would return. -/
theorem c6_cache_transparency (ops : List MemOp) (a : Nat) :
    Coherent (applyOps ops).cache (applyOps ops).memory ∧
    ((applyOps ops).readByte (a : Int)).1 = some (memGet (applyOps ops).memory a) := by
  refine ⟨coherent_applyOps ops, ?_⟩
  rw [mu_readByte_fst _ _ (coherent_applyOps ops)]
  rw [if_neg (by exact Int.not_lt.mpr (Int.natCast_nonneg a)), Int.toNat_natCast]

/-! ### Totality of the 64-bit accessors -/

theorem cache_writeByte_fst (c : Cache) (a v : Nat) (mem : Mem) :
    (c.writeByte a v mem).1 = true := by
  rw [Cache.writeByte]
  split <;> rfl

theorem cache_writeByte_mem (c : Cache) (a v : Nat) (mem : Mem) :
    (c.writeByte a v mem).2.2 = memSet mem a v := by
  rw [Cache.writeByte]
  split <;> rfl

theorem mu_writeByte_fst (s : MemoryUnit) (a v : Int) (ha : ¬ a < 0)
    (hv : ¬ (v < 0 ∨ v > 255)) : (s.writeByte a v).1 = true := by
  rw [MemoryUnit.writeByte, if_neg ha, if_neg hv]
  exact cache_writeByte_fst _ _ _ _

theorem mu_writeByte_memory (s : MemoryUnit) (a v : Int) (ha : ¬ a < 0)
    (hv : ¬ (v < 0 ∨ v > 255)) :
    (s.writeByte a v).2.memory = memSet s.memory a.toNat v.toNat := by
  rw [MemoryUnit.writeByte, if_neg ha, if_neg hv]
  exact cache_writeByte_mem _ _ _ _

theorem byteValue_bounds (value : Int) (k : Nat) :
    0 ≤ (value.fdiv (2 ^ (k * 8))).emod 256 ∧ (value.fdiv (2 ^ (k * 8))).emod 256 < 256 :=
  ⟨Int.emod_nonneg _ (by norm_num),
   Int.emod_lt_of_pos _ (show (0:Int) < 256 by norm_num)⟩

/-- Every iteration of the `write_memory_64` byte loop succeeds once the
address guards have passed: the byte values are always in `[0, 255]` and the
byte addresses are non-negative. -/
theorem write64Loop_fst (address value : Int) (ha : 0 ≤ address) :
    ∀ n i s, (MemoryUnit.write64Loop address value n i s).1 = true := by
  intro n
  induction n with
  | zero => intro i s; rfl
  | succ n ih =>
    intro i s
    rw [MemoryUnit.write64Loop]
    have hb := byteValue_bounds value i
    have hw : (s.writeByte (address + (i : Int)) ((value.fdiv (2 ^ (i * 8))).emod 256)).1
        = true := by
      apply mu_writeByte_fst
      · omega
      · omega
    rw [if_pos hw]
    exact ih (i + 1) _

/-- Every iteration of the `read_memory_64` byte loop yields a byte once the
address guard has passed. -/
theorem read64Loop_isSome (address : Int) (ha : 0 ≤ address) :
    ∀ n i value s, (MemoryUnit.read64Loop address n i value s).1.isSome = true := by
  intro n
  induction n with
  | zero => intro i value s; rfl
  | succ n ih =>
    intro i value s
    rw [MemoryUnit.read64Loop]
    have hr : (s.readByte (address + (i : Int))).1
        = some ((s.cache.readByte (address + (i : Int)).toNat s.memory).1) := by
      rw [MemoryUnit.readByte, if_neg (by omega)]
    rw [hr]
    exact ih (i + 1) _ _

theorem writeMemory64_fst_iff (s : MemoryUnit) (address value : Int) :
    (s.writeMemory64 address value).1 = true ↔ 0 ≤ address ∧ address % 8 = 0 := by
  rw [MemoryUnit.writeMemory64]
  split
  · next h => simp; omega
  · next h =>
    split
    · next h2 => simp; omega
    · next h2 =>
      simp only [write64Loop_fst address _ (by omega)]
      constructor
      · intro _; omega
      · intro _; trivial

theorem readMemory64_isSome_iff (s : MemoryUnit) (address : Int) :
    (s.readMemory64 address).1.isSome = true ↔ 0 ≤ address := by
  rw [MemoryUnit.readMemory64]
  split
  · next h => simp; omega
  · next h =>
    have hs := read64Loop_isSome address (by omega) 8 0 0 s
    constructor
    · intro _; omega
    · intro _
      simp only
      cases hm : (MemoryUnit.read64Loop address 8 0 0 s).1 with
      | none => rw [hm] at hs; simp at hs
      | some v => simp [hm]

/-- C7: `write_memory_64` succeeds exactly when the address is non-negative
and divisible by 8 (its byte writes can never fail after those guards),
while `read_memory_64` imposes no alignment requirement and fails exactly on
negative addresses — the read/write alignment asymmetry. -/
theorem c7_alignment_asymmetry (s : MemoryUnit) (address value : Int) :
    ((s.writeMemory64 address value).1 = true ↔ 0 ≤ address ∧ address % 8 = 0) ∧
    ((s.readMemory64 address).1.isSome = true ↔ 0 ≤ address) :=
  ⟨writeMemory64_fst_iff s address value, readMemory64_isSome_iff s address⟩

/-! ### Little-endian reassembly arithmetic -/

/-- Pure mirror of the or-accumulation `value |= B i << (i * 8)` performed by
the byte-collecting loops; first argument counts remaining iterations. -/
def orBytes (B : Nat → Nat) : Nat → Nat → Nat → Nat
  | 0, _, value => value
  | n + 1, i, value => orBytes B n (i + 1) (value ||| (B i <<< (i * 8)))

/-- The corresponding little-endian weighted sum. -/
def sumBytes (B : Nat → Nat) : Nat → Nat → Nat
  | 0, _ => 0
  | n + 1, i => B i * 2 ^ (i * 8) + sumBytes B n (i + 1)

theorem orBytes_congr (B B' : Nat → Nat) :
    ∀ n i value, (∀ k, i ≤ k → k < i + n → B k = B' k) →
      orBytes B n i value = orBytes B' n i value := by
  intro n
  induction n with
  | zero => intro i value _; rfl
  | succ n ih =>
    intro i value h
    rw [orBytes, orBytes, h i (le_refl i) (by omega)]
    exact ih (i + 1) _ (fun k hk1 hk2 => h k (by omega) (by omega))

theorem orBytes_eq_sum (B : Nat → Nat) (hB : ∀ k, B k < 256) :
    ∀ n i value, value < 2 ^ (i * 8) → orBytes B n i value = value + sumBytes B n i := by
  intro n
  induction n with
  | zero => intro i value _; simp [orBytes, sumBytes]
  | succ n ih =>
    intro i value h
    rw [orBytes, sumBytes]
    have hor : value ||| (B i <<< (i * 8)) = value + B i * 2 ^ (i * 8) := by
      rw [Nat.shiftLeft_eq, Nat.lor_comm, Nat.mul_comm (B i) (2 ^ (i * 8)),
        ← Nat.mul_add_lt_is_or h (B i)]
      omega
    rw [hor]
    have hbound : value + B i * 2 ^ (i * 8) < 2 ^ ((i + 1) * 8) := by
      have h1 : B i * 2 ^ (i * 8) ≤ 255 * 2 ^ (i * 8) :=
        Nat.mul_le_mul_right _ (by have := hB i; omega)
      have h2 : (2:Nat) ^ ((i + 1) * 8) = 256 * 2 ^ (i * 8) := by
        have : (i + 1) * 8 = i * 8 + 8 := by ring
        rw [this, pow_add]
        ring
      omega
    rw [ih (i + 1) _ hbound]
    omega

theorem sumBytes_div_mod (N : Nat) (h : N < 2 ^ 64) :
    sumBytes (fun k => N / 2 ^ (k * 8) % 256) 8 0 = N := by
  rw [show (8:Nat) = 7+1 from rfl, sumBytes, show (7:Nat) = 6+1 from rfl, sumBytes,
    show (6:Nat) = 5+1 from rfl, sumBytes, show (5:Nat) = 4+1 from rfl, sumBytes,
    show (4:Nat) = 3+1 from rfl, sumBytes, show (3:Nat) = 2+1 from rfl, sumBytes,
    show (2:Nat) = 1+1 from rfl, sumBytes, show (1:Nat) = 0+1 from rfl, sumBytes, sumBytes]
  norm_num
  omega

theorem shiftLeft_64 : (1 <<< 64 : Nat) = 2 ^ 64 := by
  rw [Nat.shiftLeft_eq]; norm_num

theorem shiftLeft_63 : (1 <<< 63 : Nat) = 2 ^ 63 := by
  rw [Nat.shiftLeft_eq]; norm_num

theorem and_top_bit (n : Nat) (h : n < 2 ^ 64) : n &&& (1 <<< 63) ≠ 0 ↔ 2 ^ 63 ≤ n := by
  rw [shiftLeft_63, Nat.and_two_pow, Nat.testBit_to_div_mod]
  by_cases hd : n / 2 ^ 63 % 2 = 1
  · rw [decide_eq_true hd]
    simp only [Bool.toNat_true, one_mul]
    constructor
    · intro _
      omega
    · intro _
      norm_num
  · rw [decide_eq_false hd]
    simp only [Bool.toNat_false, zero_mul]
    constructor
    · intro hne
      exact absurd rfl hne
    · intro hge
      exact absurd (by omega) hd

theorem toSigned64_eq (n : Nat) (h : n < 2 ^ 64) :
    toSigned64 n = if 2 ^ 63 ≤ n then (n : Int) - 2 ^ 64 else (n : Int) := by
  rw [toSigned64]
  by_cases hb : 2 ^ 63 ≤ n
  · rw [if_pos ((and_top_bit n h).mpr hb), if_pos hb, shiftLeft_64]
    norm_num
  · rw [if_neg (fun hc => hb ((and_top_bit n h).mp hc)), if_neg hb]

/-! ### Specification of the 64-bit write and read loops -/

theorem write64Loop_spec (address value : Int) (ha : 0 ≤ address) :
    ∀ n i s, Coherent s.cache s.memory →
      Coherent (MemoryUnit.write64Loop address value n i s).2.cache
        (MemoryUnit.write64Loop address value n i s).2.memory ∧
      (∀ j, j < n →
        memGet (MemoryUnit.write64Loop address value n i s).2.memory (address.toNat + (i + j))
          = ((value.fdiv (2 ^ ((i + j) * 8))).emod 256).toNat) ∧
      (∀ x, (∀ j, j < n → x ≠ address.toNat + (i + j)) →
        memGet (MemoryUnit.write64Loop address value n i s).2.memory x = memGet s.memory x) := by
  intro n
  induction n with
  | zero =>
    intro i s hc
    exact ⟨hc, fun j hj => absurd hj (by omega), fun x _ => rfl⟩
  | succ n ih =>
    intro i s hc
    rw [MemoryUnit.write64Loop]
    have hb := byteValue_bounds value i
    have hwf : (s.writeByte (address + (i : Int)) ((value.fdiv (2 ^ (i * 8))).emod 256)).1
        = true := mu_writeByte_fst _ _ _ (by omega) (by omega)
    rw [if_pos hwf]
    set s1 := (s.writeByte (address + (i : Int)) ((value.fdiv (2 ^ (i * 8))).emod 256)).2 with hs1
    have hc1 : Coherent s1.cache s1.memory := coherent_mu_writeByte _ _ _ hc
    have hmem1 : s1.memory
        = memSet s.memory (address.toNat + i) ((value.fdiv (2 ^ (i * 8))).emod 256).toNat := by
      rw [hs1, mu_writeByte_memory _ _ _ (by omega) (by omega)]
      congr 1
      omega
    obtain ⟨ihc, ihbytes, ihframe⟩ := ih (i + 1) s1 hc1
    refine ⟨ihc, ?_, ?_⟩
    · intro j hj
      cases j with
      | zero =>
        have h1 : ∀ j', j' < n → address.toNat + (i + 0) ≠ address.toNat + (i + 1 + j') := by
          omega
        rw [ihframe _ h1, hmem1]
        have h2 : address.toNat + (i + 0) = address.toNat + i := by omega
        rw [h2, memGet_memSet_self]
        norm_num
      | succ j' =>
        have hb' := ihbytes j' (by omega)
        have harith : i + 1 + j' = i + (j' + 1) := by omega
        rw [harith] at hb'
        exact hb'
    · intro x hx
      have h1 : ∀ j, j < n → x ≠ address.toNat + (i + 1 + j) := by
        intro j hj
        have := hx (j + 1) (by omega)
        omega
      have h0 : x ≠ address.toNat + i := by
        have := hx 0 (by omega)
        omega
      rw [ihframe x h1, hmem1, memGet_memSet_ne _ _ _ _ h0]

theorem read64Loop_spec (address : Int) (ha : 0 ≤ address) :
    ∀ n i value s, Coherent s.cache s.memory →
      (MemoryUnit.read64Loop address n i value s).1
        = some (orBytes (fun k => memGet s.memory (address.toNat + k)) n i value) ∧
      (MemoryUnit.read64Loop address n i value s).2.memory = s.memory := by
  intro n
  induction n with
  | zero => exact fun i value s _ => ⟨rfl, rfl⟩
  | succ n ih =>
    intro i value s hc
    rw [MemoryUnit.read64Loop]
    have htn : (address + (i : Int)).toNat = address.toNat + i := by omega
    have hf : (s.readByte (address + (i : Int))).1
        = some (memGet s.memory (address.toNat + i)) := by
      rw [mu_readByte_fst _ _ hc, if_neg (by omega), htn]
    have hc1 : Coherent (s.readByte (address + (i : Int))).2.cache
        (s.readByte (address + (i : Int))).2.memory := coherent_mu_readByte _ _ hc
    have hm1 : (s.readByte (address + (i : Int))).2.memory = s.memory :=
      mu_readByte_memory _ _
    simp only [hf]
    obtain ⟨ihv, ihm⟩ := ih (i + 1)
      (value ||| (memGet s.memory (address.toNat + i) <<< (i * 8)))
      (s.readByte (address + (i : Int))).2 hc1
    rw [hm1] at ihv ihm
    exact ⟨by rw [ihv, orBytes], by rw [ihm]⟩

/-- C5: for every coherent memory-unit state, every signed 64-bit value `v`
and every non-negative 8-aligned address `a`, `write64(a, v)` followed by
`read64(a)` returns exactly `v` (little-endian two's-complement round trip). -/
theorem c5_write64_read64_roundtrip (s : MemoryUnit) (hc : Coherent s.cache s.memory)
    (a v : Int) (ha : 0 ≤ a) (hal : a % 8 = 0) (hlo : -(2 ^ 63) ≤ v) (hhi : v < 2 ^ 63) :
    ((s.writeMemory64 a v).2.readMemory64 a).1 = some v := by
  rw [MemoryUnit.writeMemory64, if_neg (by omega), if_neg (by omega)]
  set v' : Int := if v < 0 then ((1 <<< 64 : Nat) : Int) + v else v with hv'
  have hv'range : 0 ≤ v' ∧ v' < 2 ^ 64 := by
    rw [hv', shiftLeft_64]
    split <;> constructor <;> push_cast <;> omega
  set N := v'.toNat with hN
  have hNcast : (N : Int) = v' := Int.toNat_of_nonneg hv'range.1
  have hNlt : N < 2 ^ 64 := by omega
  obtain ⟨hcw, hbytes, _⟩ := write64Loop_spec a v' ha 8 0 s hc
  set t := (MemoryUnit.write64Loop a v' 8 0 s).2 with ht
  have hbyteN : ∀ j, j < 8 → memGet t.memory (a.toNat + j) = N / 2 ^ (j * 8) % 256 := by
    intro j hj
    have hb := hbytes j hj
    have harith : (0 + j) = j := by omega
    rw [harith] at hb
    rw [hb]
    have hcastpow : ((2 ^ (j * 8) : Nat) : Int) = 2 ^ (j * 8) := by push_cast; ring
    have hfd : v'.fdiv (2 ^ (j * 8)) = ((N / 2 ^ (j * 8) : Nat) : Int) := by
      rw [← hNcast, ← hcastpow, ← Int.ofNat_fdiv]
    rw [hfd]
    have hmod : (((N / 2 ^ (j * 8) : Nat) : Int)).emod 256
        = ((N / 2 ^ (j * 8) % 256 : Nat) : Int) := by
      show ((N / 2 ^ (j * 8) : Nat) : Int) % ((256 : Nat) : Int)
          = ((N / 2 ^ (j * 8) % 256 : Nat) : Int)
      rw [← Int.ofNat_emod]
    rw [hmod, Int.toNat_natCast]
  rw [MemoryUnit.readMemory64, if_neg (by omega)]
  obtain ⟨hrv, _⟩ := read64Loop_spec a ha 8 0 0 t hcw
  simp only [hrv]
  have hcongr : orBytes (fun k => memGet t.memory (a.toNat + k)) 8 0 0
      = orBytes (fun k => N / 2 ^ (k * 8) % 256) 8 0 0 := by
    apply orBytes_congr
    intro k hk1 hk2
    exact hbyteN k (by omega)
  rw [hcongr, orBytes_eq_sum _ (fun k => Nat.mod_lt _ (by norm_num)) 8 0 0 (by norm_num)]
  rw [Nat.zero_add, sumBytes_div_mod N hNlt]
  rw [toSigned64_eq N hNlt]
  by_cases hneg : v < 0
  · have hvv : v' = 2 ^ 64 + v := by rw [hv', if_pos hneg, shiftLeft_64]; push_cast; ring
    have hGe : 2 ^ 63 ≤ N := by omega
    rw [if_pos hGe]
    have : (N : Int) = 2 ^ 64 + v := by rw [hNcast, hvv]
    rw [this]
    norm_num
  · have hvv : v' = v := by rw [hv', if_neg hneg]
    have hLt : ¬ 2 ^ 63 ≤ N := by omega
    rw [if_neg hLt]
    rw [hNcast, hvv]

/-- Concrete round trip discharging every hypothesis of
`c5_write64_read64_roundtrip` at the freshly constructed memory unit,
address 8 and value -5. -/
theorem c5_roundtrip_witness :
    Coherent MemoryUnit.init.cache MemoryUnit.init.memory ∧ (0 : Int) ≤ 8 ∧
    (8 : Int) % 8 = 0 ∧ -(2 ^ 63) ≤ (-5 : Int) ∧ (-5 : Int) < 2 ^ 63 ∧
    ((MemoryUnit.init.writeMemory64 8 (-5)).2.readMemory64 8).1 = some (-5) :=
  ⟨coherent_init, by norm_num, by norm_num, by norm_num, by norm_num,
   c5_write64_read64_roundtrip MemoryUnit.init coherent_init 8 (-5) (by norm_num) (by norm_num)
     (by norm_num) (by norm_num)⟩

/-! ### Register reporting (claim C10) -/

/-- C10: in every snapshot whose execution unit has the usual 15-slot register
file, the register map always contains an `rsp` entry equal to register slot
4, so `generate_state_log`'s fallback default of 512 is never used; and the
first snapshot of a freshly initialized simulator reports `rsp = 0`, the
register file's initialization. -/
theorem c10_snapshot_rsp (cu : ControlUnit) (h15 : cu.execution.registers.length = 15)
    (prog : List (Nat × Nat)) :
    cu.execution.getAllRegisters.lookup "rsp" = some (cu.execution.getRegisterValue 4) ∧
    cu.generateStateLog.REG.lookup "rsp" = some (cu.execution.getRegisterValue 4) ∧
    (initControlUnit prog).generateStateLog.REG.lookup "rsp" = some 0 := by
  have hreg : cu.execution.getRegisterValue 4 = cu.execution.registers.getD 4 0 := by
    rw [ExecutionUnit.getRegisterValue, if_pos (by rw [h15]; norm_num)]
  refine ⟨?_, ?_, ?_⟩
  · rw [hreg]
    rfl
  · rw [hreg]
    rfl
  · rfl

theorem c10_snapshot_rsp_witness :
    (initControlUnit []).execution.registers.length = 15 ∧
    ((initControlUnit []).execution.getAllRegisters.lookup "rsp"
       = some ((initControlUnit []).execution.getRegisterValue 4) ∧
     (initControlUnit []).generateStateLog.REG.lookup "rsp"
       = some ((initControlUnit []).execution.getRegisterValue 4) ∧
     (initControlUnit []).generateStateLog.REG.lookup "rsp" = some 0) :=
  ⟨by decide, c10_snapshot_rsp (initControlUnit []) (by decide) []⟩

/-! ### Unfolding `step` at a decoded instruction -/

/-- `step` on a running state whose decode yields a `pushq` (opcode `A0`)
takes exactly the `pushq` arm of the dispatch. -/
theorem step_pushq_eq (cu : ControlUnit) (instr : Instruction) (m1 : MemoryUnit)
    (hA : cu.status = CPUStatus.AOK)
    (hd : ExecutionUnit.decodeInstruction cu.PC cu.memory = (instr, m1))
    (hop : instr.opcode = 0xA0) :
    cu.step
      = (if ¬ (({ cu with memory := m1 }).executePushq instr).1
         then { (({ cu with memory := m1 }).executePushq instr).2 with status := CPUStatus.ADR }
         else { (({ cu with memory := m1 }).executePushq instr).2 with
                PC := (({ cu with memory := m1 }).executePushq instr).2.PC + (instr.length : Int) },
         (if ¬ (({ cu with memory := m1 }).executePushq instr).1
          then { (({ cu with memory := m1 }).executePushq instr).2 with status := CPUStatus.ADR }
          else { (({ cu with memory := m1 }).executePushq instr).2 with
                 PC := (({ cu with memory := m1 }).executePushq instr).2.PC
                   + (instr.length : Int) }).generateStateLog) := by
  rw [ControlUnit.step, if_neg (by simp [hA]), hd]
  have hset : instructionSet 0xA0 = some "pushq" := rfl
  simp only [hop, hset, Option.getD_some]
  simp

/-- `step` on a running state whose decode yields a `popq` (opcode `B0`)
takes exactly the `popq` arm of the dispatch. -/
theorem step_popq_eq (cu : ControlUnit) (instr : Instruction) (m1 : MemoryUnit)
    (hA : cu.status = CPUStatus.AOK)
    (hd : ExecutionUnit.decodeInstruction cu.PC cu.memory = (instr, m1))
    (hop : instr.opcode = 0xB0) :
    cu.step
      = (if ¬ (({ cu with memory := m1 }).executePopq instr).1
         then { (({ cu with memory := m1 }).executePopq instr).2 with status := CPUStatus.ADR }
         else { (({ cu with memory := m1 }).executePopq instr).2 with
                PC := (({ cu with memory := m1 }).executePopq instr).2.PC + (instr.length : Int) },
         (if ¬ (({ cu with memory := m1 }).executePopq instr).1
          then { (({ cu with memory := m1 }).executePopq instr).2 with status := CPUStatus.ADR }
          else { (({ cu with memory := m1 }).executePopq instr).2 with
                 PC := (({ cu with memory := m1 }).executePopq instr).2.PC
                   + (instr.length : Int) }).generateStateLog) := by
  rw [ControlUnit.step, if_neg (by simp [hA]), hd]
  have hset : instructionSet 0xB0 = some "popq" := rfl
  simp only [hop, hset, Option.getD_some]
  simp

theorem getRegisterValue_set_self (e : ExecutionUnit) (i : Nat) (v : Int)
    (h : i < e.registers.length) :
    (e.setRegisterValue i v).2.getRegisterValue i = v := by
  rw [ExecutionUnit.setRegisterValue, if_pos h, ExecutionUnit.getRegisterValue]
  simp only [List.length_set]
  rw [if_pos h, List.getD_eq_getElem?_getD, List.getElem?_set_self (by simpa using h)]
  rfl

/-- C4: on every executed `pushq` the stack-pointer register is
unconditionally set to its old value minus 8, whether or not the 64-bit
write at the new pointer succeeds (it succeeds exactly when the new pointer
is non-negative and 8-aligned); on failure the status becomes
INVALID-ADDRESS with the PC unchanged, on success the status stays RUNNING
and the PC advances by the instruction length. -/
theorem c4_pushq_unconditional_rsp (cu : ControlUnit) (instr : Instruction) (m1 : MemoryUnit)
    (hA : cu.status = CPUStatus.AOK)
    (hd : ExecutionUnit.decodeInstruction cu.PC cu.memory = (instr, m1))
    (hop : instr.opcode = 0xA0) (h15 : cu.execution.registers.length = 15) :
    cu.step.1.execution.getRegisterValue 4 = cu.execution.getRegisterValue 4 - 8 ∧
    (¬ (0 ≤ cu.execution.getRegisterValue 4 - 8 ∧
        (cu.execution.getRegisterValue 4 - 8) % 8 = 0) →
      cu.step.1.status = CPUStatus.ADR ∧ cu.step.1.PC = cu.PC) ∧
    ((0 ≤ cu.execution.getRegisterValue 4 - 8 ∧
        (cu.execution.getRegisterValue 4 - 8) % 8 = 0) →
      cu.step.1.status = CPUStatus.AOK ∧ cu.step.1.PC = cu.PC + (instr.length : Int)) := by
  rw [step_pushq_eq cu instr m1 hA hd hop]
  have hpush : ({ cu with memory := m1 }).executePushq instr
      = ((m1.writeMemory64 (cu.execution.getRegisterValue 4 - 8)
            (cu.execution.getRegisterValue instr.rA)).1,
         { cu with
             memory := (m1.writeMemory64 (cu.execution.getRegisterValue 4 - 8)
               (cu.execution.getRegisterValue instr.rA)).2,
             execution := (cu.execution.setRegisterValue 4
               (cu.execution.getRegisterValue 4 - 8)).2 }) := rfl
  rw [hpush]
  have hget : (cu.execution.setRegisterValue 4
      (cu.execution.getRegisterValue 4 - 8)).2.getRegisterValue 4
      = cu.execution.getRegisterValue 4 - 8 :=
    getRegisterValue_set_self cu.execution 4 _ (by rw [h15]; norm_num)
  dsimp only
  split_ifs with hcond
  · refine ⟨hget, fun hnw => ?_, fun _ => ⟨hA, rfl⟩⟩
    exact absurd ((writeMemory64_fst_iff _ _ _).mp hcond) hnw
  · refine ⟨hget, fun _ => ⟨rfl, rfl⟩, fun hw => ?_⟩
    exact absurd ((writeMemory64_fst_iff _ _ _).mpr hw) hcond

/-- Concrete pushq at a zero stack pointer, discharging every hypothesis of
`c4_pushq_unconditional_rsp`: the write at -8 fails, the stack pointer is
still decremented. -/
theorem c4_pushq_witness :
    (initControlUnit [(0, 0xA0), (1, 0x0F)]).status = CPUStatus.AOK ∧
    (ExecutionUnit.decodeInstruction (initControlUnit [(0, 0xA0), (1, 0x0F)]).PC
        (initControlUnit [(0, 0xA0), (1, 0x0F)]).memory).1.opcode = 0xA0 ∧
    (initControlUnit [(0, 0xA0), (1, 0x0F)]).execution.registers.length = 15 ∧
    ((initControlUnit [(0, 0xA0), (1, 0x0F)]).step.1.execution.getRegisterValue 4
       = (initControlUnit [(0, 0xA0), (1, 0x0F)]).execution.getRegisterValue 4 - 8 ∧
     (¬ (0 ≤ (initControlUnit [(0, 0xA0), (1, 0x0F)]).execution.getRegisterValue 4 - 8 ∧
         ((initControlUnit [(0, 0xA0), (1, 0x0F)]).execution.getRegisterValue 4 - 8) % 8 = 0) →
       (initControlUnit [(0, 0xA0), (1, 0x0F)]).step.1.status = CPUStatus.ADR ∧
       (initControlUnit [(0, 0xA0), (1, 0x0F)]).step.1.PC
         = (initControlUnit [(0, 0xA0), (1, 0x0F)]).PC) ∧
     ((0 ≤ (initControlUnit [(0, 0xA0), (1, 0x0F)]).execution.getRegisterValue 4 - 8 ∧
         ((initControlUnit [(0, 0xA0), (1, 0x0F)]).execution.getRegisterValue 4 - 8) % 8 = 0) →
       (initControlUnit [(0, 0xA0), (1, 0x0F)]).step.1.status = CPUStatus.AOK ∧
       (initControlUnit [(0, 0xA0), (1, 0x0F)]).step.1.PC
         = (initControlUnit [(0, 0xA0), (1, 0x0F)]).PC
           + ((ExecutionUnit.decodeInstruction (initControlUnit [(0, 0xA0), (1, 0x0F)]).PC
               (initControlUnit [(0, 0xA0), (1, 0x0F)]).memory).1.length : Int))) :=
  ⟨rfl, by decide, by decide,
   c4_pushq_unconditional_rsp (initControlUnit [(0, 0xA0), (1, 0x0F)])
     (ExecutionUnit.decodeInstruction (initControlUnit [(0, 0xA0), (1, 0x0F)]).PC
       (initControlUnit [(0, 0xA0), (1, 0x0F)]).memory).1
     (ExecutionUnit.decodeInstruction (initControlUnit [(0, 0xA0), (1, 0x0F)]).PC
       (initControlUnit [(0, 0xA0), (1, 0x0F)]).memory).2
     rfl rfl (by decide) (by decide)⟩

theorem setRegisterValue_registers (e : ExecutionUnit) (i : Nat) (v : Int)
    (h : i < e.registers.length) :
    (e.setRegisterValue i v).2.registers = e.registers.set i v := by
  rw [ExecutionUnit.setRegisterValue, if_pos h]

/-- C8: on every executed `popq` whose memory read at the current stack
pointer fails (which happens exactly when the stack pointer is negative),
the step is atomic: status becomes INVALID-ADDRESS and PC and the whole
register file, in particular the stack pointer and the destination
register, are unchanged; on a successful read the stack pointer and then
the destination register are written and PC advances by the instruction
length. -/
theorem c8_popq_atomic_on_failure (cu : ControlUnit) (instr : Instruction) (m1 : MemoryUnit)
    (hA : cu.status = CPUStatus.AOK)
    (hd : ExecutionUnit.decodeInstruction cu.PC cu.memory = (instr, m1))
    (hop : instr.opcode = 0xB0) (h15 : cu.execution.registers.length = 15)
    (hrA : instr.rA < 15) :
    (cu.execution.getRegisterValue 4 < 0 →
      cu.step.1.status = CPUStatus.ADR ∧ cu.step.1.PC = cu.PC ∧
      cu.step.1.execution = cu.execution) ∧
    (0 ≤ cu.execution.getRegisterValue 4 →
      ∃ value,
        (m1.readMemory64 (cu.execution.getRegisterValue 4)).1 = some value ∧
        cu.step.1.execution.registers
          = (cu.execution.registers.set 4 (cu.execution.getRegisterValue 4 + 8)).set
              instr.rA value ∧
        cu.step.1.status = CPUStatus.AOK ∧
        cu.step.1.PC = cu.PC + (instr.length : Int)) := by
  rw [step_popq_eq cu instr m1 hA hd hop]
  by_cases hneg : cu.execution.getRegisterValue 4 < 0
  · have hpop : ({ cu with memory := m1 }).executePopq instr
        = (false, { cu with memory := m1 }) := by
      rw [ControlUnit.executePopq]
      dsimp only
      rw [MemoryUnit.popValue, if_pos hneg]
    rw [hpop]
    exact ⟨fun _ => ⟨rfl, rfl, rfl⟩, fun hge => absurd hge (by omega)⟩
  · have hsome := (readMemory64_isSome_iff m1 (cu.execution.getRegisterValue 4)).mpr (by omega)
    obtain ⟨value, hval⟩ := Option.isSome_iff_exists.mp hsome
    have hpop : ({ cu with memory := m1 }).executePopq instr
        = (true,
           { cu with
               memory := (m1.popValue (cu.execution.getRegisterValue 4)).2,
               execution := (((cu.execution.setRegisterValue 4
                 (cu.execution.getRegisterValue 4 + 8)).2).setRegisterValue instr.rA value).2 }) := by
      rw [ControlUnit.executePopq]
      dsimp only
      rw [MemoryUnit.popValue, if_neg hneg]
      simp only [hval]
    rw [hpop]
    have hinner : (cu.execution.setRegisterValue 4 (cu.execution.getRegisterValue 4 + 8)).2.registers
        = cu.execution.registers.set 4 (cu.execution.getRegisterValue 4 + 8) :=
      setRegisterValue_registers cu.execution 4 _ (by rw [h15]; norm_num)
    have houter := setRegisterValue_registers
      (cu.execution.setRegisterValue 4 (cu.execution.getRegisterValue 4 + 8)).2 instr.rA value
      (by rw [hinner, List.length_set, h15]; exact hrA)
    rw [hinner] at houter
    exact ⟨fun hlt => absurd hlt hneg, fun _ => ⟨value, hval, houter, hA, rfl⟩⟩

/-- The two-byte program `popq %rax` at address 0. -/
def popProg : List (Nat × Nat) := [(0, 0xB0), (1, 0x0F)]

/-- The simulator loaded with `popProg`. -/
def popCU : ControlUnit := initControlUnit popProg

/-- The decode of `popProg`'s first instruction. -/
def popInstr : Instruction := (ExecutionUnit.decodeInstruction popCU.PC popCU.memory).1

/-- The memory unit as left by that decode. -/
def popM1 : MemoryUnit := (ExecutionUnit.decodeInstruction popCU.PC popCU.memory).2

/-- Concrete popq at a zero stack pointer, discharging every hypothesis of
`c8_popq_atomic_on_failure` (the read at rsp = 0 succeeds). -/
theorem c8_popq_witness :
    popCU.status = CPUStatus.AOK ∧ popInstr.opcode = 0xB0 ∧
    popCU.execution.registers.length = 15 ∧ popInstr.rA < 15 ∧
    ((popCU.execution.getRegisterValue 4 < 0 →
        popCU.step.1.status = CPUStatus.ADR ∧ popCU.step.1.PC = popCU.PC ∧
        popCU.step.1.execution = popCU.execution) ∧
     (0 ≤ popCU.execution.getRegisterValue 4 →
        ∃ value,
          (popM1.readMemory64 (popCU.execution.getRegisterValue 4)).1 = some value ∧
          popCU.step.1.execution.registers
            = (popCU.execution.registers.set 4 (popCU.execution.getRegisterValue 4 + 8)).set
                popInstr.rA value ∧
          popCU.step.1.status = CPUStatus.AOK ∧
          popCU.step.1.PC = popCU.PC + (popInstr.length : Int))) :=
  ⟨rfl, by decide, by decide, by decide,
   c8_popq_atomic_on_failure popCU popInstr popM1 rfl rfl (by decide) (by decide) (by decide)⟩

/-! ### The run-status state machine (claim C9) -/

theorem step_snd (cu : ControlUnit) : cu.step.2 = cu.step.1.generateStateLog := by
  rw [ControlUnit.step]
  split <;> rfl

theorem generateStateLog_STAT (cu : ControlUnit) :
    cu.generateStateLog.STAT = cu.status.value := rfl

theorem runUntilHalt_ne_nil (fuel : Nat) (cu : ControlUnit) (hA : cu.status = CPUStatus.AOK) :
    (ControlUnit.runUntilHalt (fuel + 1) cu).1 ≠ [] := by
  rw [ControlUnit.runUntilHalt, if_neg (by simp [hA])]
  dsimp only
  split
  · simp
  · simp

/-- C9: the status machine is absorbing. A `step()` from any non-RUNNING
state returns only a snapshot and leaves the whole state untouched; in any
`run_until_halt` trace every snapshot except possibly the last reports
STAT = 1 (RUNNING), i.e. the loop stops at the first cycle whose resulting
status is terminal; and when the loop did terminate on a terminal status the
trace ends exactly with that terminal cycle's snapshot. -/
theorem c9_status_machine :
    (∀ cu : ControlUnit, cu.status ≠ CPUStatus.AOK → cu.step = (cu, cu.generateStateLog)) ∧
    (∀ (fuel : Nat) (cu : ControlUnit) (snap : CPUState),
       snap ∈ (ControlUnit.runUntilHalt fuel cu).1.dropLast → snap.STAT = 1) ∧
    (∀ (fuel : Nat) (cu : ControlUnit),
       (ControlUnit.runUntilHalt fuel cu).2.status ≠ CPUStatus.AOK →
       (ControlUnit.runUntilHalt fuel cu).1 ≠ [] →
       (ControlUnit.runUntilHalt fuel cu).1.getLast?
         = some ((ControlUnit.runUntilHalt fuel cu).2.generateStateLog)) := by
  refine ⟨?_, ?_, ?_⟩
  · intro cu h
    rw [ControlUnit.step, if_pos h]
  · intro fuel
    induction fuel with
    | zero => intro cu snap h; simp [ControlUnit.runUntilHalt] at h
    | succ fuel ih =>
      intro cu snap h
      rw [ControlUnit.runUntilHalt] at h
      by_cases hA : cu.status = CPUStatus.AOK
      · rw [if_neg (by simp [hA])] at h
        by_cases hT : cu.step.1.status ≠ CPUStatus.AOK
        · rw [if_pos hT] at h
          simp at h
        · rw [if_neg hT] at h
          dsimp only at h
          cases hrest : (ControlUnit.runUntilHalt fuel cu.step.1).1 with
          | nil => rw [hrest] at h; simp at h
          | cons x xs =>
            rw [hrest] at h
            rw [List.dropLast_cons₂] at h
            rcases List.mem_cons.mp h with hfst | htail
            · rw [hfst, step_snd, generateStateLog_STAT, not_not.mp hT]
              rfl
            · have := ih cu.step.1 snap
              rw [hrest] at this
              exact this htail
      · rw [if_pos hA] at h
        simp at h
  · intro fuel
    induction fuel with
    | zero => intro cu _ hne; exact absurd rfl hne
    | succ fuel ih =>
      intro cu hterm hne
      rw [ControlUnit.runUntilHalt] at hterm hne ⊢
      by_cases hA : cu.status = CPUStatus.AOK
      · rw [if_neg (by simp [hA])] at hterm hne ⊢
        by_cases hT : cu.step.1.status ≠ CPUStatus.AOK
        · rw [if_pos hT] at hterm hne ⊢
          rw [step_snd]
          rfl
        · rw [if_neg hT] at hterm hne ⊢
          dsimp only at hterm hne ⊢
          have hA1 : cu.step.1.status = CPUStatus.AOK := not_not.mp hT
          cases fuel with
          | zero =>
            exact absurd hA1 (by simpa [ControlUnit.runUntilHalt] using hterm)
          | succ fuel' =>
            have hnn := runUntilHalt_ne_nil fuel' cu.step.1 hA1
            cases hrest : (ControlUnit.runUntilHalt (fuel' + 1) cu.step.1).1 with
            | nil => exact absurd hrest hnn
            | cons x xs =>
              rw [List.getLast?_cons_cons]
              have h2 := ih cu.step.1 hterm hnn
              rw [hrest] at h2
              exact h2
      · rw [if_pos hA] at hne
        exact absurd rfl hne

/-- A control unit already halted: `step` on it is snapshot-only. -/
def haltedCU : ControlUnit :=
  { memory := MemoryUnit.init, execution := ExecutionUnit.init, PC := 0,
    status := CPUStatus.HLT }

/-- Concrete run of a one-byte halt program plus a halted state, discharging
the hypotheses of `c9_status_machine`. -/
theorem c9_status_machine_witness :
    (haltedCU.status ≠ CPUStatus.AOK ∧ haltedCU.step = (haltedCU, haltedCU.generateStateLog)) ∧
    ((ControlUnit.runUntilHalt 3 (initControlUnit [(0, 0x00)])).2.status ≠ CPUStatus.AOK ∧
     (ControlUnit.runUntilHalt 3 (initControlUnit [(0, 0x00)])).1 ≠ [] ∧
     (ControlUnit.runUntilHalt 3 (initControlUnit [(0, 0x00)])).1.getLast?
       = some ((ControlUnit.runUntilHalt 3 (initControlUnit [(0, 0x00)])).2.generateStateLog)) :=
  ⟨⟨by decide, c9_status_machine.1 haltedCU (by decide)⟩,
   ⟨by decide, by decide,
    c9_status_machine.2.2 3 (initControlUnit [(0, 0x00)]) (by decide) (by decide)⟩⟩

/-! ### Invalid opcode behaviour (claim C1) -/

/-- C1 as the code actually behaves: opcode `FF` is absent from the table,
decode returns the deterministic fallback record `opcode='00', length=1`
without raising — but `'00'` is the HALT opcode, so the control unit treats
the fallback as a halt: the run produces exactly one snapshot and its STAT
is 2 (HALTED), not 4 (INVALID-INSTRUCTION). -/
theorem c1_unknown_opcode_run_halts :
    instructionSet 0xFF = none ∧
    (ExecutionUnit.decodeInstruction (initControlUnit [(0, 0xFF)]).PC
        (initControlUnit [(0, 0xFF)]).memory).1
      = { opcode := 0x00, length := 1, address := 0 } ∧
    ((ControlUnit.runUntilHalt 2 (initControlUnit [(0, 0xFF)])).1.map
        (fun snap => snap.STAT)) = [2] :=
  ⟨rfl, by decide, by decide⟩

/-! ### Arithmetic without wrap-around (claim C2) -/

/-- An execution unit whose register 0 (`%rax`) holds the largest positive
64-bit value `2^63 - 1 = 9223372036854775807`, as `irmovq` could load it. -/
def maxRegExec : ExecutionUnit :=
  { ExecutionUnit.init with
      registers := ExecutionUnit.init.registers.set 0 (9223372036854775807 : Int) }

/-- C2 as the code actually behaves: `execute_addq` on the two largest
positive 64-bit values stores the unwrapped Python sum
`2^64 - 2 = 18446744073709551614` (outside the signed 64-bit range) in the
destination register and computes ZF = 0, SF = 0, OF = 0 from that unwrapped
result — not the two's-complement-wrapped `-2` with SF = 1 and OF = 1 the
claim requires. -/
theorem c2_addq_does_not_wrap :
    (maxRegExec.executeAddq 0 0).2.registers.getD 0 0 = (18446744073709551614 : Int) ∧
    ((18446744073709551614 : Int) > 9223372036854775807) ∧
    (maxRegExec.executeAddq 0 0).2.ZF = 0 ∧
    (maxRegExec.executeAddq 0 0).2.SF = 0 ∧
    (maxRegExec.executeAddq 0 0).2.OF = 0 := by
  refine ⟨by decide, by decide, by decide, by decide, by decide⟩

/-! ### The snapshot memory mapping (claim C3) -/

theorem lookup_eq_some_mem {m : Mem} {x v : Nat} (h : m.lookup x = some v) : (x, v) ∈ m := by
  induction m with
  | nil => simp [List.lookup] at h
  | cons p t ih =>
    rcases p with ⟨k, b⟩
    by_cases hx : x = k
    · subst hx
      simp [List.lookup] at h
      simp [h]
    · have hbeq : (x == k) = false := by simp [hx]
      simp only [List.lookup, hbeq] at h
      exact List.mem_cons_of_mem _ (ih h)

theorem memGet_le_of_bound {m : Mem} (hB : ∀ p ∈ m, p.2 ≤ 255) (x : Nat) :
    memGet m x ≤ 255 := by
  rw [memGet]
  cases hl : m.lookup x with
  | none => simp
  | some v => simpa using hB _ (lookup_eq_some_mem hl)

theorem memGet_ne_zero_mem {m : Mem} {x : Nat} (h : memGet m x ≠ 0) :
    x ∈ m.map (fun p => p.1) := by
  rw [memGet] at h
  cases hl : m.lookup x with
  | none => rw [hl] at h; simp at h
  | some v => exact List.mem_map.mpr ⟨(x, v), lookup_eq_some_mem hl, rfl⟩

theorem wordAt_eq_sumBytes {m : Mem} (hB : ∀ p ∈ m, p.2 ≤ 255) (b : Nat) :
    wordAt m b = sumBytes (fun j => memGet m (b + j)) 8 0 := by
  have h1 : wordAt m b = orBytes (fun j => memGet m (b + j)) 8 0 0 := rfl
  rw [h1, orBytes_eq_sum _
    (fun k => lt_of_le_of_lt (memGet_le_of_bound hB _) (by norm_num)) 8 0 0 (by norm_num)]
  omega

theorem windowNonzero_iff (m : Mem) (b : Nat) :
    windowNonzero m b = true ↔ ∃ i, i < 8 ∧ memGet m (b + i) ≠ 0 := by
  rw [windowNonzero, List.any_eq_true]
  constructor
  · rintro ⟨i, hi, hne⟩
    exact ⟨i, List.mem_range.mp hi, by simpa using hne⟩
  · rintro ⟨i, hi, hne⟩
    exact ⟨i, List.mem_range.mpr hi, by simpa using hne⟩

theorem mem_getNonzeroMemory_iff (s : MemoryUnit) (b : Nat) (w : Int) :
    (b, w) ∈ s.getNonzeroMemory ↔
      b % 8 = 0 ∧ (∃ i, i < 8 ∧ memGet s.memory (b + i) ≠ 0) ∧
      w = toSigned64 (wordAt s.memory b) := by
  rw [MemoryUnit.getNonzeroMemory]
  simp only [List.mem_mergeSort, List.mem_filterMap, List.mem_dedup, List.mem_map]
  constructor
  · rintro ⟨base, hbase, hsome⟩
    split at hsome
    · next hwin =>
      injection hsome with h
      cases h
      obtain ⟨addr, ⟨p, hp, rfl⟩, rfl⟩ := hbase
      refine ⟨by rw [and_seven]; omega, (windowNonzero_iff _ _).mp hwin, rfl⟩
    · exact absurd hsome (by simp)
  · rintro ⟨halign, ⟨i, hi, hne⟩, hw⟩
    have hkey : (b + i) ∈ s.memory.map (fun p => p.1) := memGet_ne_zero_mem hne
    rcases List.mem_map.mp hkey with ⟨p, hp, hpi⟩
    refine ⟨b, ⟨b + i, ⟨p, hp, hpi⟩, ?_⟩, ?_⟩
    · rw [and_seven]
      omega
    · rw [if_pos ((windowNonzero_iff _ _).mpr ⟨i, hi, hne⟩), hw]

unseal List.merge List.mergeSort String.ltb in
/-- C3: in every snapshot of a state whose memory bytes are in range, the MEM
mapping contains exactly the 8-byte-aligned words with some non-zero byte,
each as the little-endian signed 64-bit value keyed by the decimal text of
its base address; the keys are sorted by string comparison of that text, not
numerically — in particular, with non-zero words at addresses 8 and 16 the
key "16" precedes "8". -/
theorem c3_mem_mapping (cu : ControlUnit) (hB : ∀ p ∈ cu.memory.memory, p.2 ≤ 255) :
    cu.generateStateLog.MEM.Pairwise (fun a b => a.1 ≤ b.1) ∧
    (∀ k v, (k, v) ∈ cu.generateStateLog.MEM ↔
      ∃ base : Nat, base % 8 = 0 ∧ (∃ i, i < 8 ∧ memGet cu.memory.memory (base + i) ≠ 0) ∧
        k = toString base ∧
        v = toSigned64 (sumBytes (fun j => memGet cu.memory.memory (base + j)) 8 0)) ∧
    (initControlUnit [(8, 1), (16, 1)]).generateStateLog.MEM.map (fun p => p.1) = ["16", "8"] := by
  have hMEM : cu.generateStateLog.MEM
      = ((cu.memory.getNonzeroMemory).map (fun p => (toString p.1, p.2))).mergeSort
          (fun a b => decide (a.1 ≤ b.1)) := rfl
  refine ⟨?_, ?_, by decide⟩
  · rw [hMEM]
    have hs := @List.sorted_mergeSort (String × Int)
      (fun (a b : String × Int) => decide (a.1 ≤ b.1))
      (fun a b c hab hbc =>
        decide_eq_true (le_trans (of_decide_eq_true hab) (of_decide_eq_true hbc)))
      (fun a b => by
        rcases le_total a.1 b.1 with h | h
        · simp [h]
        · simp [h])
      ((cu.memory.getNonzeroMemory).map (fun p => (toString p.1, p.2)))
    exact hs.imp (fun h => of_decide_eq_true h)
  · intro k v
    rw [hMEM, List.mem_mergeSort, List.mem_map]
    constructor
    · rintro ⟨⟨b, w⟩, hmem, heq⟩
      cases heq
      obtain ⟨halign, hnz, hw⟩ := (mem_getNonzeroMemory_iff cu.memory b w).mp hmem
      exact ⟨b, halign, hnz, rfl, by rw [hw, wordAt_eq_sumBytes hB]⟩
    · rintro ⟨base, halign, hnz, hk, hv⟩
      refine ⟨(base, toSigned64 (wordAt cu.memory.memory base)),
        (mem_getNonzeroMemory_iff cu.memory base _).mpr ⟨halign, hnz, rfl⟩, ?_⟩
      rw [hk, hv, wordAt_eq_sumBytes hB]

/-- The simulator loaded with single non-zero bytes at addresses 8 and 16. -/
def twoWordCU : ControlUnit := initControlUnit [(8, 1), (16, 1)]

/-- Concrete instance discharging the byte-range hypothesis of
`c3_mem_mapping` at the two-word memory. -/
theorem c3_mem_mapping_witness :
    (∀ p ∈ twoWordCU.memory.memory, p.2 ≤ 255) ∧
    (twoWordCU.generateStateLog.MEM.Pairwise (fun a b => a.1 ≤ b.1) ∧
     (∀ k v, (k, v) ∈ twoWordCU.generateStateLog.MEM ↔
       ∃ base : Nat, base % 8 = 0 ∧
         (∃ i, i < 8 ∧ memGet twoWordCU.memory.memory (base + i) ≠ 0) ∧
         k = toString base ∧
         v = toSigned64 (sumBytes (fun j => memGet twoWordCU.memory.memory (base + j)) 8 0)) ∧
     (initControlUnit [(8, 1), (16, 1)]).generateStateLog.MEM.map (fun p => p.1) = ["16", "8"]) :=
  ⟨by decide, c3_mem_mapping twoWordCU (by decide)⟩

end Y86
